import Mathlib

/-!
Shallow embedding of the airport stand allocation simulator
(src/model/airport_model.py and src/agents/aircraft.py).

Python integers become Lean Int; the heapq priority queue becomes a list
kept sorted by the lexicographic order on (time, kind string, aircraft id),
which reproduces the heapq pop order exactly, since in a run with unique
identifiers all event keys are distinct; the aircraft_by_id dict becomes an
insertion-ordered association list with overwriting update; the
parked_aircraft set becomes a duplicate-free list.  String comparison is
stated on the underlying character lists, which Mathlib proves equivalent
to the order on String itself (String.lt_iff_toList_lt).  The two while
loops are written with an explicit iteration bound that is proved to be
sufficient, so they compute and are provably equal to the source loops.
-/

set_option maxRecDepth 400000

namespace AirportSim

/-- Stand classes assigned by the greedy policy. -/
inductive StandType
  | PLB
  | REMOTE
deriving DecidableEq, Repr

/-- Aircraft lifecycle states (Aircraft.state in src/agents/aircraft.py). -/
inductive ACState
  | scheduled
  | parked
  | departed
deriving DecidableEq, Repr

/-- Event kinds, stored in the source as the strings ARRIVAL / DEPARTURE. -/
inductive EventKind
  | ARRIVAL
  | DEPARTURE
deriving DecidableEq, Repr

/-- The label string for the kind, used in heap tuple comparison. -/
def kindStr : EventKind → String
  | .ARRIVAL => "ARRIVAL"
  | .DEPARTURE => "DEPARTURE"

/-- An event tuple (time, event_type, aircraft_id) as pushed on the heap. -/
structure Event where
  time : Int
  kind : EventKind
  acId : String
deriving DecidableEq, Repr

/-- Python tuple comparison (time, event_type, aircraft_id), compared
lexicographically, exactly as heapq compares heap entries; string
comparison is lexicographic on the character sequences. -/
def evLt (a b : Event) : Prop :=
  a.time < b.time ∨
    (a.time = b.time ∧
      ((kindStr a.kind).data < (kindStr b.kind).data ∨
        ((kindStr a.kind).data = (kindStr b.kind).data ∧ a.acId.data < b.acId.data)))

instance evLt.instDecidable : ∀ a b : Event, Decidable (evLt a b) := by
  intro a b
  unfold evLt
  infer_instance

/-- The non-strict companion of evLt, used to state heap order. -/
def evLe (a b : Event) : Prop :=
  ¬ evLt b a

/-- Insertion into the sorted event list: the new event goes after every
strictly smaller entry.  For distinct keys this produces the unique sorted
order, hence the same pop sequence as the heapq in the source. -/
def insort (e : Event) : List Event → List Event
  | [] => [e]
  | h :: t => if evLt h e then h :: insort e t else e :: h :: t

/-- One aircraft record (src/agents/aircraft.py, class Aircraft). -/
structure AircraftRec where
  aircraft_id : String
  arrival_time : Int
  turnaround_time : Int
  departure_time : Int
  assigned_stand_type : Option StandType
  state : ACState
deriving DecidableEq, Repr

/-- Aircraft construction: departure_time = arrival_time + turnaround_time,
no stand assigned, state scheduled. -/
def mkAircraft (id : String) (arrival turnaround : Int) : AircraftRec :=
  ⟨id, arrival, turnaround, arrival + turnaround, none, .scheduled⟩

/-- Aircraft.assign_stand: set the stand class and move to parked. -/
def assignStand (ac : AircraftRec) (s : StandType) : AircraftRec :=
  { ac with assigned_stand_type := some s, state := .parked }

/-- Aircraft.depart: move to departed. -/
def acDepart (ac : AircraftRec) : AircraftRec :=
  { ac with state := .departed }

/-- One row of the per-aircraft output (appended in _process_departure). -/
structure ResultRow where
  aircraft_id : String
  arrival_time : Int
  departure_time : Int
  turnaround_time : Int
  assigned_stand_type : Option StandType
deriving DecidableEq, Repr

/-- One row of the per-minute output (appended in step). -/
structure MinuteRow where
  current_time : Int
  plb_occupied : Int
  total_parked : Nat
  remote_occupied : Nat
  plb_available : Int
deriving DecidableEq, Repr

/-- One row of the input table. -/
structure InputRow where
  aircraft_id : String
  arrival_time : Int
  turnaround_time : Int
deriving DecidableEq, Repr

/-- The whole mutable state of class AirportModel. -/
structure AirportModel where
  plb_total : Int
  plb_available : Int
  simulation_duration : Int
  current_time : Int
  event_queue : List Event
  parked_aircraft : List String
  aircraft_by_id : List (String × AircraftRec)
  aircraft_results : List ResultRow
  minute_results : List MinuteRow
deriving DecidableEq, Repr

/-- Dict lookup (aircraft_by_id[acId]). -/
def dictLookup (d : List (String × AircraftRec)) (id : String) : Option AircraftRec :=
  match d with
  | [] => none
  | (k, v) :: t => if k = id then some v else dictLookup t id

/-- Dict write (aircraft_by_id[acId] = v): overwrite in place, else append,
matching the insertion-ordered Python dict. -/
def dictUpdate (d : List (String × AircraftRec)) (id : String) (v : AircraftRec) :
    List (String × AircraftRec) :=
  match d with
  | [] => [(id, v)]
  | (k, w) :: t => if k = id then (k, v) :: t else (k, w) :: dictUpdate t id v

/-- Set insertion (parked_aircraft.add): a no-op when already present. -/
def setAdd (l : List String) (id : String) : List String :=
  if id ∈ l then l else id :: l

/-- Set removal (parked_aircraft.remove). -/
def setRemove (l : List String) (id : String) : List String :=
  l.erase id

/-- The stand class recorded in a dict for an identifier, if known. -/
def lookupAssigned (d : List (String × AircraftRec)) (id : String) : Option StandType :=
  match dictLookup d id with
  | none => none
  | some ac => ac.assigned_stand_type

/-- The stand class currently recorded for an identifier, if it is known. -/
def assignedOf (m : AirportModel) (id : String) : Option StandType :=
  lookupAssigned m.aircraft_by_id id

/-- The lifecycle state currently recorded for an identifier. -/
def stateOf (m : AirportModel) (id : String) : Option ACState :=
  match dictLookup m.aircraft_by_id id with
  | none => none
  | some ac => some ac.state

/-- AirportModel._schedule_event: push (time, kind, id) on the heap. -/
def scheduleEvent (m : AirportModel) (time : Int) (kind : EventKind) (acId : String) :
    AirportModel :=
  { m with event_queue := insort ⟨time, kind, acId⟩ m.event_queue }

/-- AirportModel._process_arrival: greedy allocation, park, schedule the
departure at the precomputed departure time.  The none branch is
unreachable in any run started by the constructor, where every scheduled
event references a created aircraft; in the source it would raise KeyError. -/
def processArrival (m : AirportModel) (acId : String) : AirportModel :=
  match dictLookup m.aircraft_by_id acId with
  | none => m
  | some ac =>
    let p : AircraftRec × Int :=
      if m.plb_available > 0 then (assignStand ac .PLB, m.plb_available - 1)
      else (assignStand ac .REMOTE, m.plb_available)
    let m2 : AirportModel :=
      { m with plb_available := p.2,
               aircraft_by_id := dictUpdate m.aircraft_by_id acId p.1,
               parked_aircraft := setAdd m.parked_aircraft acId }
    scheduleEvent m2 p.1.departure_time .DEPARTURE acId

/-- The per-aircraft result record emitted at departure. -/
def mkResultRow (ac : AircraftRec) : ResultRow :=
  ⟨ac.aircraft_id, ac.arrival_time, ac.departure_time, ac.turnaround_time,
   ac.assigned_stand_type⟩

/-- AirportModel._process_departure: reclaim a PLB stand if one was held,
mark departed, unpark, emit the per-aircraft row.  The none branch is
unreachable as in processArrival. -/
def processDeparture (m : AirportModel) (acId : String) : AirportModel :=
  match dictLookup m.aircraft_by_id acId with
  | none => m
  | some ac =>
    let avail : Int :=
      if ac.assigned_stand_type = some .PLB then m.plb_available + 1
      else m.plb_available
    { m with plb_available := avail,
             aircraft_by_id := dictUpdate m.aircraft_by_id acId (acDepart ac),
             parked_aircraft := setRemove m.parked_aircraft acId,
             aircraft_results := m.aircraft_results ++ [mkResultRow (acDepart ac)] }

/-- Dispatch one popped event to its handler. -/
def dispatchEvent (m : AirportModel) (e : Event) : AirportModel :=
  match e.kind with
  | .ARRIVAL => processArrival m e.acId
  | .DEPARTURE => processDeparture m e.acId

/-- Termination weight: an arrival may schedule one departure, a departure
schedules nothing. -/
def evWeight (e : Event) : Nat :=
  match e.kind with
  | .ARRIVAL => 2
  | .DEPARTURE => 1

/-- Total weight of the pending queue; strictly decreases at each pop. -/
def queueMeasure (q : List Event) : Nat :=
  (q.map evWeight).sum

/-- The drain loop of _process_events_at_current_time, with an explicit
iteration bound.  The bound only serves termination: queueMeasure is a
proven strict upper bound on the number of pops, so with that much fuel the
function is exactly the source while-loop (see the processEvents lemmas). -/
def drainFuel : Nat → AirportModel → AirportModel
  | 0, m => m
  | fuel + 1, m =>
    match m.event_queue with
    | [] => m
    | e :: rest =>
      if e.time = m.current_time then
        drainFuel fuel (dispatchEvent { m with event_queue := rest } e)
      else m

/-- AirportModel._process_events_at_current_time: pop and dispatch while the
head of the heap is due now. -/
def processEventsAtCurrentTime (m : AirportModel) : AirportModel :=
  drainFuel (queueMeasure m.event_queue) m

/-- The per-minute snapshot appended by step. -/
def mkSnapshot (m : AirportModel) : MinuteRow :=
  ⟨m.current_time,
   m.plb_total - m.plb_available,
   m.parked_aircraft.length,
   (m.parked_aircraft.filter (fun a => decide (assignedOf m a = some .REMOTE))).length,
   m.plb_available⟩

/-- AirportModel.step: drain events due now, record the snapshot, advance
the clock by one minute. -/
def step (m : AirportModel) : AirportModel :=
  let m1 := processEventsAtCurrentTime m
  { m1 with minute_results := m1.minute_results ++ [mkSnapshot m1],
            current_time := m1.current_time + 1 }

/-- The driver while-loop of run_simulation, with an explicit iteration
bound.  The bound only serves termination: the clock advances by exactly
one each step, so with horizon + 1 - clock iterations of fuel the function
is exactly the source while-loop (see runLoop_go and runLoop_stop). -/
def runFuel : Nat → AirportModel → AirportModel
  | 0, m => m
  | fuel + 1, m =>
    if m.current_time ≤ m.simulation_duration then runFuel fuel (step m) else m

/-- AirportModel.run_simulation main loop: step while the clock has not
passed the horizon. -/
def runLoop (m : AirportModel) : AirportModel :=
  runFuel (m.simulation_duration + 1 - m.current_time).toNat m

/-- One iteration of _initialize_aircraft: create the aircraft record,
index it by identifier, and schedule its ARRIVAL event. -/
def initStep (acc : AirportModel) (r : InputRow) : AirportModel :=
  let ac := mkAircraft r.aircraft_id r.arrival_time r.turnaround_time
  scheduleEvent
    { acc with aircraft_by_id := dictUpdate acc.aircraft_by_id ac.aircraft_id ac }
    ac.arrival_time .ARRIVAL ac.aircraft_id

/-- AirportModel.__init__ together with _initialize_aircraft: create the
aircraft records, index them by identifier, and seed one ARRIVAL event per
input row.  No validation of any kind is performed by the source. -/
def initModel (rows : List InputRow) (plb_stands : Int) (simulation_duration : Int) :
    AirportModel :=
  rows.foldl initStep
    ⟨plb_stands, plb_stands, simulation_duration, 0, [], [], [], [], []⟩

/-- AirportModel.run_simulation on a freshly constructed model. -/
def runSimulation (rows : List InputRow) (plb_stands : Int) (simulation_duration : Int) :
    AirportModel :=
  runLoop (initModel rows plb_stands simulation_duration)

/-! Specification-side definitions used to state the verified properties. -/

/-- The pending events that reference one identifier. -/
def eventsFor (q : List Event) (id : String) : List Event :=
  q.filter (fun e => decide (e.acId = id))

/-- The emitted per-aircraft rows that reference one identifier. -/
def resultsFor (rs : List ResultRow) (id : String) : List ResultRow :=
  rs.filter (fun r => decide (r.aircraft_id = id))

/-- How many members of a parked list hold a PLB stand under a dict. -/
def plbCount (d : List (String × AircraftRec)) (l : List String) : Nat :=
  l.countP (fun a => decide (lookupAssigned d a = some .PLB))

/-- How many currently parked aircraft hold a PLB stand. -/
def plbParkedCount (m : AirportModel) : Nat :=
  plbCount m.aircraft_by_id m.parked_aircraft

/-- How many dict entries are in the departed state. -/
def depCount (d : List (String × AircraftRec)) : Nat :=
  d.countP (fun p => decide (p.2.state = .departed))

/-- How many created aircraft have reached the departed state. -/
def departedCount (m : AirportModel) : Nat :=
  depCount m.aircraft_by_id

/-- The immutable timing data of every created aircraft, in dict order. -/
def timings (m : AirportModel) : List (String × Int × Int) :=
  m.aircraft_by_id.map (fun p => (p.1, p.2.arrival_time, p.2.turnaround_time))

/-- The timing data of the input table, for comparison with timings. -/
def rowTimings (rows : List InputRow) : List (String × Int × Int) :=
  rows.map (fun r => (r.aircraft_id, r.arrival_time, r.turnaround_time))

/-- The dict entry created for one input row. -/
def entryOf (r : InputRow) : String × AircraftRec :=
  (r.aircraft_id, mkAircraft r.aircraft_id r.arrival_time r.turnaround_time)

/-- The ARRIVAL event seeded for one input row. -/
def arrEv (r : InputRow) : Event :=
  ⟨r.arrival_time, .ARRIVAL, r.aircraft_id⟩

/-- Well-formed input: unique identifiers, non-negative arrival times,
positive turnaround times. -/
def WFInput (rows : List InputRow) : Prop :=
  (rows.map (fun r => r.aircraft_id)).Nodup ∧
    ∀ r ∈ rows, 0 ≤ r.arrival_time ∧ 0 < r.turnaround_time

instance (rows : List InputRow) : Decidable (WFInput rows) :=
  inferInstanceAs (Decidable ((rows.map (fun r : InputRow => r.aircraft_id)).Nodup ∧
    ∀ r ∈ rows, 0 ≤ r.arrival_time ∧ 0 < r.turnaround_time))

/-- How many input aircraft are on the ground at minute t, counting the
half-open occupancy interval arrival ≤ t < departure. -/
def inIntervalCount (rows : List InputRow) (t : Int) : Nat :=
  rows.countP
    (fun r => decide (r.arrival_time ≤ t ∧ t < r.arrival_time + r.turnaround_time))

/-- How many input aircraft have minute t inside the closed interval
arrival ≤ t ≤ departure.  At a shared minute the engine processes the
arrival before the departure, so this is the binding demand on stands. -/
def closedIntervalCount (rows : List InputRow) (t : Int) : Nat :=
  rows.countP
    (fun r => decide (r.arrival_time ≤ t ∧ t ≤ r.arrival_time + r.turnaround_time))

/-- The list t, t+1, ..., t+n-1. -/
def intRange (t : Int) (n : Nat) : List Int :=
  (List.range n).map (fun i => t + Int.ofNat i)

/-- Per-identifier invariant while the aircraft is still scheduled. -/
def schedInv (m : AirportModel) (id : String) (ac : AircraftRec) : Prop :=
  ac.assigned_stand_type = none ∧
  eventsFor m.event_queue id = [⟨ac.arrival_time, .ARRIVAL, id⟩] ∧
  id ∉ m.parked_aircraft ∧
  resultsFor m.aircraft_results id = [] ∧
  m.current_time ≤ ac.arrival_time

/-- Per-identifier invariant while the aircraft is parked. -/
def parkedInv (m : AirportModel) (id : String) (ac : AircraftRec) : Prop :=
  (∃ s, ac.assigned_stand_type = some s) ∧
  eventsFor m.event_queue id = [⟨ac.departure_time, .DEPARTURE, id⟩] ∧
  id ∈ m.parked_aircraft ∧
  resultsFor m.aircraft_results id = [] ∧
  ac.arrival_time ≤ m.current_time ∧
  m.current_time ≤ ac.departure_time

/-- Per-identifier invariant after the aircraft departed. -/
def departedInv (m : AirportModel) (id : String) (ac : AircraftRec) : Prop :=
  (∃ s, ac.assigned_stand_type = some s) ∧
  eventsFor m.event_queue id = [] ∧
  id ∉ m.parked_aircraft ∧
  resultsFor m.aircraft_results id = [mkResultRow ac] ∧
  ac.departure_time ≤ m.current_time ∧
  ac.departure_time ≤ m.simulation_duration

/-- Per-identifier invariant, dispatched on the lifecycle state. -/
def idInv (m : AirportModel) (id : String) (ac : AircraftRec) : Prop :=
  ac.aircraft_id = id ∧
  ac.departure_time = ac.arrival_time + ac.turnaround_time ∧
  ac.arrival_time < ac.departure_time ∧
  0 ≤ ac.arrival_time ∧
  match ac.state with
  | .scheduled => schedInv m id ac
  | .parked => parkedInv m id ac
  | .departed => departedInv m id ac

/-- The global simulation invariant, preserved by every event dispatch and
by every minute step taken inside the horizon. -/
structure Inv (m : AirportModel) : Prop where
  keysNodup : (m.aircraft_by_id.map Prod.fst).Nodup
  parkedNodup : m.parked_aircraft.Nodup
  qSorted : List.Pairwise evLe m.event_queue
  qFuture : ∀ e ∈ m.event_queue, m.current_time ≤ e.time
  qKnown : ∀ e ∈ m.event_queue, ∃ ac, dictLookup m.aircraft_by_id e.acId = some ac
  parkedKnown : ∀ id ∈ m.parked_aircraft,
    ∃ ac, dictLookup m.aircraft_by_id id = some ac ∧ ac.state = ACState.parked
  perId : ∀ id ac, dictLookup m.aircraft_by_id id = some ac → idInv m id ac
  timeNonneg : 0 ≤ m.current_time
  poolEq : m.plb_available = m.plb_total - (plbParkedCount m : Int)
  poolNonneg : 0 ≤ m.plb_available
  resultsLen : m.aircraft_results.length = departedCount m

/-- All still-pending events lie strictly in the future; holds right after
a drain. -/
def PostDrain (m : AirportModel) : Prop :=
  ∀ e ∈ m.event_queue, m.current_time < e.time

/-! Order lemmas for the heap comparison. -/

theorem strData_inj {s t : String} (h : s.data = t.data) : s = t := by
  cases s
  cases t
  cases h
  rfl

theorem kindStr_data_inj {a b : EventKind} (h : (kindStr a).data = (kindStr b).data) :
    a = b := by
  cases a <;> cases b
  · rfl
  · exact absurd h (by decide)
  · exact absurd h (by decide)
  · rfl

theorem evLt_irrefl (a : Event) : ¬ evLt a a := by
  unfold evLt
  rintro (h | ⟨-, h | ⟨-, h⟩⟩)
  · exact lt_irrefl _ h
  · exact lt_irrefl _ h
  · exact lt_irrefl _ h

theorem evLt_trans {a b c : Event} (h1 : evLt a b) (h2 : evLt b c) : evLt a c := by
  unfold evLt at h1 h2 ⊢
  rcases h1 with ht1 | ⟨he1, hk1⟩
  · rcases h2 with ht2 | ⟨he2, -⟩
    · exact Or.inl (lt_trans ht1 ht2)
    · exact Or.inl (he2 ▸ ht1)
  · rcases h2 with ht2 | ⟨he2, hk2⟩
    · exact Or.inl (he1 ▸ ht2)
    · refine Or.inr ⟨he1.trans he2, ?_⟩
      rcases hk1 with hl1 | ⟨hq1, hi1⟩
      · rcases hk2 with hl2 | ⟨hq2, -⟩
        · exact Or.inl (lt_trans hl1 hl2)
        · exact Or.inl (hq2 ▸ hl1)
      · rcases hk2 with hl2 | ⟨hq2, hi2⟩
        · exact Or.inl (hq1 ▸ hl2)
        · exact Or.inr ⟨hq1.trans hq2, lt_trans hi1 hi2⟩

theorem evLt_asymm {a b : Event} (h : evLt a b) : ¬ evLt b a := by
  intro h2
  exact evLt_irrefl a (evLt_trans h h2)

theorem evLt_trichotomy (a b : Event) : evLt a b ∨ a = b ∨ evLt b a := by
  obtain ⟨t1, k1, i1⟩ := a
  obtain ⟨t2, k2, i2⟩ := b
  rcases lt_trichotomy t1 t2 with ht | ht | ht
  · exact Or.inl (Or.inl ht)
  · subst ht
    rcases lt_trichotomy (kindStr k1).data (kindStr k2).data with hk | hk | hk
    · exact Or.inl (Or.inr ⟨rfl, Or.inl hk⟩)
    · have hkk : k1 = k2 := kindStr_data_inj hk
      subst hkk
      rcases lt_trichotomy i1.data i2.data with hi | hi | hi
      · exact Or.inl (Or.inr ⟨rfl, Or.inr ⟨hk, hi⟩⟩)
      · have hii : i1 = i2 := strData_inj hi
        subst hii
        exact Or.inr (Or.inl rfl)
      · exact Or.inr (Or.inr (Or.inr ⟨rfl, Or.inr ⟨hk.symm, hi⟩⟩))
    · exact Or.inr (Or.inr (Or.inr ⟨rfl, Or.inl hk⟩))
  · exact Or.inr (Or.inr (Or.inl ht))

theorem evLe_refl (a : Event) : evLe a a :=
  evLt_irrefl a

theorem evLe_total (a b : Event) : evLe a b ∨ evLe b a := by
  by_cases h : evLt b a
  · exact Or.inr (evLt_asymm h)
  · exact Or.inl h

theorem evLe_trans {a b c : Event} (h1 : evLe a b) (h2 : evLe b c) : evLe a c := by
  intro hca
  rcases evLt_trichotomy b c with hbc | hbc | hbc
  · exact h1 (evLt_trans hbc hca)
  · exact h1 (by rw [hbc]; exact hca)
  · exact h2 hbc

theorem evLe_time {a b : Event} (h : evLe a b) : a.time ≤ b.time := by
  by_contra hlt
  exact h (Or.inl (by omega))

/-! Lemmas about sorted insertion. -/

theorem insort_perm (e : Event) (q : List Event) : List.Perm (insort e q) (e :: q) := by
  induction q with
  | nil => exact List.Perm.refl _
  | cons h t ih =>
    unfold insort
    by_cases hlt : evLt h e
    · simp only [hlt, if_true]
      exact (ih.cons h).trans (List.Perm.swap e h t)
    · simp only [hlt, if_false]
      exact List.Perm.refl _

theorem mem_insort {x e : Event} {q : List Event} :
    x ∈ insort e q ↔ x = e ∨ x ∈ q := by
  rw [(insort_perm e q).mem_iff]
  simp

theorem insort_sorted {e : Event} {q : List Event} (hs : List.Pairwise evLe q) :
    List.Pairwise evLe (insort e q) := by
  induction q with
  | nil => simp [insort]
  | cons h t ih =>
    rcases hs with _ | ⟨hh, ht⟩
    unfold insort
    by_cases hlt : evLt h e
    · simp only [hlt, if_true]
      refine List.Pairwise.cons ?_ (ih ht)
      intro x hx
      rcases mem_insort.mp hx with rfl | hx
      · exact evLt_asymm hlt
      · exact hh x hx
    · simp only [hlt, if_false]
      refine List.Pairwise.cons ?_ (List.Pairwise.cons hh ht)
      intro x hx
      rcases List.mem_cons.mp hx with rfl | hx
      · exact hlt
      · exact evLe_trans hlt (hh x hx)

/-! Lemmas about the per-identifier event and result filters. -/

theorem mem_eventsFor {x : Event} {q : List Event} {id : String} :
    x ∈ eventsFor q id ↔ x ∈ q ∧ x.acId = id := by
  simp [eventsFor, List.mem_filter]

theorem eventsFor_cons (e : Event) (q : List Event) (id : String) :
    eventsFor (e :: q) id =
      if e.acId = id then e :: eventsFor q id else eventsFor q id := by
  by_cases h : e.acId = id <;> simp [eventsFor, List.filter, h]

theorem eventsFor_insort_ne (e : Event) (q : List Event) (id : String)
    (h : ¬ e.acId = id) : eventsFor (insort e q) id = eventsFor q id := by
  induction q with
  | nil => simp [insort, eventsFor, List.filter, h]
  | cons hd t ih =>
    unfold insort
    by_cases hlt : evLt hd e
    · simp only [hlt, if_true]
      rw [eventsFor_cons, eventsFor_cons, ih]
    · simp only [hlt, if_false]
      rw [eventsFor_cons, if_neg h]

theorem eventsFor_insort_self (e : Event) (q : List Event) (id : String)
    (h : e.acId = id) (h0 : eventsFor q id = []) :
    eventsFor (insort e q) id = [e] := by
  induction q with
  | nil => simp [insort, eventsFor, List.filter, h]
  | cons hd t ih =>
    rw [eventsFor_cons] at h0
    by_cases hhd : hd.acId = id
    · rw [if_pos hhd] at h0
      cases h0
    · rw [if_neg hhd] at h0
      unfold insort
      by_cases hlt : evLt hd e
      · simp only [hlt, if_true]
        rw [eventsFor_cons, if_neg hhd, ih h0]
      · simp only [hlt, if_false]
        rw [eventsFor_cons, if_pos h, eventsFor_cons, if_neg hhd, h0]

theorem resultsFor_append (rs : List ResultRow) (r : ResultRow) (id : String) :
    resultsFor (rs ++ [r]) id =
      resultsFor rs id ++ if r.aircraft_id = id then [r] else [] := by
  by_cases h : r.aircraft_id = id <;>
    simp [resultsFor, List.filter_append, List.filter, h]

/-! Lemmas about the identifier dict. -/

theorem dictLookup_update_self (d : List (String × AircraftRec)) (id : String)
    (v : AircraftRec) : dictLookup (dictUpdate d id v) id = some v := by
  induction d with
  | nil => simp [dictUpdate, dictLookup]
  | cons p t ih =>
    obtain ⟨k, w⟩ := p
    unfold dictUpdate
    by_cases hk : k = id
    · simp [dictLookup, hk]
    · simp only [hk, if_false]
      simp [dictLookup, hk, ih]

theorem dictLookup_update_ne (d : List (String × AircraftRec)) {id id' : String}
    (v : AircraftRec) (h : ¬ id' = id) :
    dictLookup (dictUpdate d id v) id' = dictLookup d id' := by
  have h2 : ¬ id = id' := fun hh => h hh.symm
  induction d with
  | nil =>
    simp [dictUpdate, dictLookup, h2]
  | cons p t ih =>
    obtain ⟨k, w⟩ := p
    unfold dictUpdate
    by_cases hk : k = id
    · subst hk
      simp [dictLookup, h2]
    · simp only [hk, if_false]
      by_cases hk' : k = id'
      · simp [dictLookup, hk']
      · simp [dictLookup, hk', ih]

theorem dictUpdate_keys {d : List (String × AircraftRec)} {id : String}
    {ac : AircraftRec} (v : AircraftRec) (h : dictLookup d id = some ac) :
    (dictUpdate d id v).map Prod.fst = d.map Prod.fst := by
  induction d with
  | nil => cases h
  | cons p t ih =>
    obtain ⟨k, w⟩ := p
    unfold dictUpdate
    by_cases hk : k = id
    · simp [hk]
    · unfold dictLookup at h
      simp only [hk, if_false] at h
      simp [hk, ih h]

theorem dictLookup_mem {d : List (String × AircraftRec)} {id : String}
    {ac : AircraftRec} (h : dictLookup d id = some ac) : (id, ac) ∈ d := by
  induction d with
  | nil => cases h
  | cons p t ih =>
    obtain ⟨k, w⟩ := p
    unfold dictLookup at h
    by_cases hk : k = id
    · simp only [hk, if_true] at h
      cases h
      subst hk
      exact List.mem_cons_self _ _
    · simp only [hk, if_false] at h
      exact List.mem_cons_of_mem _ (ih h)

theorem mem_dictLookup {d : List (String × AircraftRec)} {id : String}
    {ac : AircraftRec} (hnd : (d.map Prod.fst).Nodup) (h : (id, ac) ∈ d) :
    dictLookup d id = some ac := by
  induction d with
  | nil => cases h
  | cons p t ih =>
    obtain ⟨k, w⟩ := p
    rcases List.mem_cons.mp h with heq | hmem
    · cases heq
      simp [dictLookup]
    · simp only [List.map_cons, List.nodup_cons] at hnd
      have hk : ¬ k = id := by
        intro hk
        subst hk
        exact hnd.1 (List.mem_map.mpr ⟨(k, ac), hmem, rfl⟩)
      simp only [dictLookup, hk, if_false]
      exact ih hnd.2 hmem

theorem dictLookup_some_of_mem_keys {d : List (String × AircraftRec)} {id : String}
    (h : id ∈ d.map Prod.fst) : ∃ ac, dictLookup d id = some ac := by
  induction d with
  | nil => cases h
  | cons p t ih =>
    obtain ⟨k, w⟩ := p
    by_cases hk : k = id
    · exact ⟨w, by simp [dictLookup, hk]⟩
    · simp only [List.map_cons, List.mem_cons] at h
      rcases h with heq | hmem
      · exact absurd heq.symm hk
      · obtain ⟨ac, hac⟩ := ih hmem
        exact ⟨ac, by simp [dictLookup, hk, hac]⟩

theorem dictUpdate_not_mem {d : List (String × AircraftRec)} {id : String}
    (v : AircraftRec) (h : ¬ id ∈ d.map Prod.fst) :
    dictUpdate d id v = d ++ [(id, v)] := by
  induction d with
  | nil => rfl
  | cons p t ih =>
    obtain ⟨k, w⟩ := p
    simp only [List.map_cons, List.mem_cons] at h
    push_neg at h
    unfold dictUpdate
    rw [if_neg (fun hk => h.1 hk.symm)]
    simp [ih h.2]

theorem dictUpdate_countP (d : List (String × AircraftRec)) {id : String}
    {ac : AircraftRec} (v : AircraftRec) (p : String × AircraftRec → Bool)
    (h : dictLookup d id = some ac) :
    (dictUpdate d id v).countP p + (if p (id, ac) then 1 else 0) =
      d.countP p + (if p (id, v) then 1 else 0) := by
  induction d with
  | nil => cases h
  | cons q t ih =>
    obtain ⟨k, w⟩ := q
    unfold dictLookup at h
    unfold dictUpdate
    by_cases hk : k = id
    · subst hk
      simp only [if_true] at h ⊢
      cases h
      simp only [List.countP_cons]
      omega
    · simp only [hk, if_false] at h ⊢
      simp only [List.countP_cons]
      have := ih h
      omega

theorem dictUpdate_timingMap {d : List (String × AircraftRec)} {id : String}
    {ac : AircraftRec} (v : AircraftRec) (h : dictLookup d id = some ac)
    (ha : v.arrival_time = ac.arrival_time) (ht : v.turnaround_time = ac.turnaround_time) :
    (dictUpdate d id v).map (fun p => (p.1, p.2.arrival_time, p.2.turnaround_time)) =
      d.map (fun p => (p.1, p.2.arrival_time, p.2.turnaround_time)) := by
  induction d with
  | nil => cases h
  | cons q t ih =>
    obtain ⟨k, w⟩ := q
    unfold dictLookup at h
    unfold dictUpdate
    by_cases hk : k = id
    · simp only [hk, if_true] at h ⊢
      cases h
      simp [ha, ht]
    · simp only [hk, if_false] at h ⊢
      simp [ih h]

/-! Lemmas about the parked set. -/

theorem mem_setAdd {l : List String} {x id : String} :
    x ∈ setAdd l id ↔ x = id ∨ x ∈ l := by
  unfold setAdd
  by_cases h : id ∈ l
  · simp only [h, if_true]
    constructor
    · exact Or.inr
    · rintro (rfl | hx)
      · exact h
      · exact hx
  · simp [h]

theorem setAdd_nodup {l : List String} {id : String} (h : l.Nodup) :
    (setAdd l id).Nodup := by
  unfold setAdd
  by_cases hm : id ∈ l
  · simpa [hm]
  · simpa [hm]

theorem setAdd_length {l : List String} {id : String} (h : ¬ id ∈ l) :
    (setAdd l id).length = l.length + 1 := by
  simp [setAdd, h]

theorem setAdd_countP {l : List String} {id : String} (p : String → Bool)
    (h : ¬ id ∈ l) :
    (setAdd l id).countP p = l.countP p + (if p id then 1 else 0) := by
  simp only [setAdd, h, if_false, List.countP_cons]

theorem mem_setRemove {l : List String} {x id : String} (hnd : l.Nodup) :
    x ∈ setRemove l id ↔ x ∈ l ∧ ¬ x = id := by
  unfold setRemove
  rw [List.Nodup.mem_erase_iff hnd]
  tauto

theorem setRemove_nodup {l : List String} {id : String} (h : l.Nodup) :
    (setRemove l id).Nodup :=
  h.erase id

theorem setRemove_length {l : List String} {id : String} (h : id ∈ l) :
    (setRemove l id).length + 1 = l.length :=
  List.length_erase_add_one h

theorem setRemove_countP {l : List String} {id : String} (p : String → Bool)
    (hnd : l.Nodup) (h : id ∈ l) :
    (setRemove l id).countP p + (if p id then 1 else 0) = l.countP p := by
  induction l with
  | nil => cases h
  | cons a t ih =>
    rcases List.nodup_cons.mp hnd with ⟨ha, hnt⟩
    unfold setRemove at ih ⊢
    rcases List.mem_cons.mp h with rfl | hm
    · rw [List.erase_cons_head]
      simp [List.countP_cons]
    · have hne : ¬ a = id := fun hk => ha (hk ▸ hm)
      rw [List.erase_cons_tail]
      · simp only [List.countP_cons]
        have := ih hnt hm
        omega
      · simp [hne]

theorem countP_congr_list {α : Type} {l : List α} {p q : α → Bool}
    (h : ∀ x ∈ l, p x = q x) : l.countP p = l.countP q := by
  induction l with
  | nil => rfl
  | cons a t ih =>
    simp only [List.countP_cons]
    rw [h a (List.mem_cons_self a t), ih (fun x hx => h x (List.mem_cons_of_mem a hx))]

/-! The fueled loops are exactly the source while-loops. -/

theorem queueMeasure_insort (e : Event) (q : List Event) :
    queueMeasure (insort e q) = evWeight e + queueMeasure q := by
  induction q with
  | nil => simp [insort, queueMeasure]
  | cons h t ih =>
    by_cases hlt : evLt h e
    · simp only [insort, hlt, if_true, queueMeasure, List.map_cons, List.sum_cons] at ih ⊢
      omega
    · simp [insort, hlt, queueMeasure]

theorem queueMeasure_processArrival (m : AirportModel) (id : String) :
    queueMeasure (processArrival m id).event_queue ≤ 1 + queueMeasure m.event_queue := by
  unfold processArrival
  cases h : dictLookup m.aircraft_by_id id with
  | none => simp
  | some ac =>
    simp [scheduleEvent, queueMeasure_insort, evWeight]

theorem processDeparture_event_queue (m : AirportModel) (id : String) :
    (processDeparture m id).event_queue = m.event_queue := by
  unfold processDeparture
  cases h : dictLookup m.aircraft_by_id id with
  | none => rfl
  | some ac => rfl

theorem queueMeasure_dispatch (m : AirportModel) (e : Event) :
    queueMeasure (dispatchEvent m e).event_queue < evWeight e + queueMeasure m.event_queue := by
  obtain ⟨t, k, i⟩ := e
  cases k with
  | ARRIVAL =>
    have h := queueMeasure_processArrival m i
    simp only [dispatchEvent, evWeight]
    omega
  | DEPARTURE =>
    simp only [dispatchEvent, evWeight]
    rw [processDeparture_event_queue]
    omega

theorem drainFuel_nil (m : AirportModel) (h : m.event_queue = []) :
    ∀ fuel, drainFuel fuel m = m := by
  intro fuel
  cases fuel with
  | zero => rfl
  | succ k =>
    unfold drainFuel
    rw [h]

theorem queueMeasure_pos (e : Event) (rest : List Event) :
    1 ≤ queueMeasure (e :: rest) := by
  obtain ⟨t, k, i⟩ := e
  cases k
  · simp only [queueMeasure, List.map_cons, List.sum_cons, evWeight]
    omega
  · simp only [queueMeasure, List.map_cons, List.sum_cons, evWeight]
    omega

theorem drainFuel_irrel :
    ∀ fuel g : Nat, ∀ m : AirportModel,
      queueMeasure m.event_queue ≤ fuel → queueMeasure m.event_queue ≤ g →
      drainFuel fuel m = drainFuel g m := by
  intro fuel
  induction fuel with
  | zero =>
    intro g m hf hg
    have hq : m.event_queue = [] := by
      rcases hqq : m.event_queue with _ | ⟨e, rest⟩
      · rfl
      · exfalso
        have := queueMeasure_pos e rest
        rw [hqq] at hf
        omega
    rw [drainFuel_nil m hq, drainFuel_nil m hq]
  | succ k ih =>
    intro g m hf hg
    rcases hq : m.event_queue with _ | ⟨e, rest⟩
    · rw [drainFuel_nil m hq, drainFuel_nil m hq]
    · rcases g with _ | g2
      · exfalso
        have := queueMeasure_pos e rest
        rw [hq] at hg
        omega
      · unfold drainFuel
        rw [hq]
        by_cases ht : e.time = m.current_time
        · simp only [ht, if_true]
          have hd : queueMeasure (dispatchEvent { m with event_queue := rest } e).event_queue <
              evWeight e + queueMeasure rest :=
            queueMeasure_dispatch _ e
          have hcons : queueMeasure (e :: rest) = evWeight e + queueMeasure rest := by
            simp [queueMeasure]
          rw [hq, hcons] at hf hg
          exact ih g2 _ (by omega) (by omega)
        · simp only [ht, if_false]

theorem processEvents_nil (m : AirportModel) (h : m.event_queue = []) :
    processEventsAtCurrentTime m = m :=
  drainFuel_nil m h _

theorem processEvents_cons_due (m : AirportModel) (e : Event) (rest : List Event)
    (h : m.event_queue = e :: rest) (ht : e.time = m.current_time) :
    processEventsAtCurrentTime m =
      processEventsAtCurrentTime (dispatchEvent { m with event_queue := rest } e) := by
  unfold processEventsAtCurrentTime
  have hd : queueMeasure (dispatchEvent { m with event_queue := rest } e).event_queue <
      evWeight e + queueMeasure rest :=
    queueMeasure_dispatch _ e
  have hM : queueMeasure m.event_queue = evWeight e + queueMeasure rest := by
    rw [h]
    simp [queueMeasure]
  have hpos := queueMeasure_pos e rest
  rw [← h] at hpos
  obtain ⟨k, hk⟩ : ∃ k, queueMeasure m.event_queue = k + 1 :=
    ⟨queueMeasure m.event_queue - 1, by omega⟩
  rw [hk]
  conv_lhs => rw [drainFuel]
  rw [h]
  simp only [ht, if_true]
  apply drainFuel_irrel
  · omega
  · exact le_refl _

theorem processEvents_cons_stop (m : AirportModel) (e : Event) (rest : List Event)
    (h : m.event_queue = e :: rest) (ht : ¬ e.time = m.current_time) :
    processEventsAtCurrentTime m = m := by
  unfold processEventsAtCurrentTime
  have hpos := queueMeasure_pos e rest
  rw [← h] at hpos
  obtain ⟨k, hk⟩ : ∃ k, queueMeasure m.event_queue = k + 1 :=
    ⟨queueMeasure m.event_queue - 1, by omega⟩
  rw [hk]
  conv_lhs => rw [drainFuel]
  rw [h]
  simp only [ht, if_false]

/-- Generic induction along the drain loop: a property preserved by every
single due-event dispatch is preserved by the whole drain. -/
theorem drain_ind (P : AirportModel → Prop)
    (hstep : ∀ m : AirportModel, ∀ e : Event, ∀ rest : List Event,
      m.event_queue = e :: rest → e.time = m.current_time → P m →
      P (dispatchEvent { m with event_queue := rest } e)) :
    ∀ m : AirportModel, P m → P (processEventsAtCurrentTime m) := by
  have key : ∀ n : Nat, ∀ m : AirportModel, queueMeasure m.event_queue = n → P m →
      P (processEventsAtCurrentTime m) := by
    intro n
    induction n using Nat.strong_induction_on with
    | _ n ih =>
      intro m hn hP
      rcases hq : m.event_queue with _ | ⟨e, rest⟩
      · rw [processEvents_nil m hq]
        exact hP
      · by_cases ht : e.time = m.current_time
        · rw [processEvents_cons_due m e rest hq ht]
          have hd : queueMeasure (dispatchEvent { m with event_queue := rest } e).event_queue <
              evWeight e + queueMeasure rest :=
            queueMeasure_dispatch _ e
          have hlt : queueMeasure (dispatchEvent { m with event_queue := rest } e).event_queue < n := by
            rw [← hn, hq]
            simp only [queueMeasure, List.map_cons, List.sum_cons]
            simp only [queueMeasure] at hd
            omega
          exact ih _ hlt _ rfl (hstep m e rest hq ht hP)
        · rw [processEvents_cons_stop m e rest hq ht]
          exact hP
  intro m
  exact key _ m rfl

/-- After the drain, either the queue is empty or its head is not due now. -/
theorem drain_head_not_due (m : AirportModel) :
    (processEventsAtCurrentTime m).event_queue = [] ∨
      ∃ e rest, (processEventsAtCurrentTime m).event_queue = e :: rest ∧
        ¬ e.time = (processEventsAtCurrentTime m).current_time := by
  have key : ∀ n : Nat, ∀ m : AirportModel, queueMeasure m.event_queue = n →
      (processEventsAtCurrentTime m).event_queue = [] ∨
        ∃ e rest, (processEventsAtCurrentTime m).event_queue = e :: rest ∧
          ¬ e.time = (processEventsAtCurrentTime m).current_time := by
    intro n
    induction n using Nat.strong_induction_on with
    | _ n ih =>
      intro m hn
      rcases hq : m.event_queue with _ | ⟨e, rest⟩
      · rw [processEvents_nil m hq]
        exact Or.inl hq
      · by_cases ht : e.time = m.current_time
        · rw [processEvents_cons_due m e rest hq ht]
          have hd : queueMeasure (dispatchEvent { m with event_queue := rest } e).event_queue <
              evWeight e + queueMeasure rest :=
            queueMeasure_dispatch _ e
          have hlt : queueMeasure (dispatchEvent { m with event_queue := rest } e).event_queue < n := by
            rw [← hn, hq]
            simp only [queueMeasure, List.map_cons, List.sum_cons]
            simp only [queueMeasure] at hd
            omega
          exact ih _ hlt _ rfl
        · rw [processEvents_cons_stop m e rest hq ht]
          exact Or.inr ⟨e, rest, hq, ht⟩
  exact key _ m rfl

theorem processArrival_fixedFields (m : AirportModel) (id : String) :
    (processArrival m id).current_time = m.current_time ∧
    (processArrival m id).simulation_duration = m.simulation_duration ∧
    (processArrival m id).plb_total = m.plb_total ∧
    (processArrival m id).minute_results = m.minute_results ∧
    (processArrival m id).aircraft_results = m.aircraft_results := by
  unfold processArrival
  cases h : dictLookup m.aircraft_by_id id with
  | none => exact ⟨rfl, rfl, rfl, rfl, rfl⟩
  | some ac => simp [scheduleEvent]

theorem processDeparture_fixedFields (m : AirportModel) (id : String) :
    (processDeparture m id).current_time = m.current_time ∧
    (processDeparture m id).simulation_duration = m.simulation_duration ∧
    (processDeparture m id).plb_total = m.plb_total ∧
    (processDeparture m id).minute_results = m.minute_results := by
  unfold processDeparture
  cases h : dictLookup m.aircraft_by_id id with
  | none => exact ⟨rfl, rfl, rfl, rfl⟩
  | some ac => simp

theorem dispatch_fixedFields (m : AirportModel) (e : Event) :
    (dispatchEvent m e).current_time = m.current_time ∧
    (dispatchEvent m e).simulation_duration = m.simulation_duration ∧
    (dispatchEvent m e).plb_total = m.plb_total ∧
    (dispatchEvent m e).minute_results = m.minute_results := by
  obtain ⟨t, k, i⟩ := e
  cases k with
  | ARRIVAL =>
    have h := processArrival_fixedFields m i
    exact ⟨h.1, h.2.1, h.2.2.1, h.2.2.2.1⟩
  | DEPARTURE => exact processDeparture_fixedFields m i

theorem processEvents_fixedFields (m : AirportModel) :
    (processEventsAtCurrentTime m).current_time = m.current_time ∧
    (processEventsAtCurrentTime m).simulation_duration = m.simulation_duration ∧
    (processEventsAtCurrentTime m).plb_total = m.plb_total ∧
    (processEventsAtCurrentTime m).minute_results = m.minute_results :=
  drain_ind (fun x =>
      x.current_time = m.current_time ∧
      x.simulation_duration = m.simulation_duration ∧
      x.plb_total = m.plb_total ∧
      x.minute_results = m.minute_results)
    (by
      intro m2 e rest hq ht hP
      have hd := dispatch_fixedFields { m2 with event_queue := rest } e
      simp only at hd
      exact ⟨hd.1.trans hP.1, (hd.2.1).trans hP.2.1, (hd.2.2.1).trans hP.2.2.1,
             (hd.2.2.2).trans hP.2.2.2⟩)
    m ⟨rfl, rfl, rfl, rfl⟩

theorem step_current_time (m : AirportModel) :
    (step m).current_time = m.current_time + 1 := by
  have h := processEvents_fixedFields m
  simp [step, h.1]

theorem step_simulation_duration (m : AirportModel) :
    (step m).simulation_duration = m.simulation_duration := by
  have h := processEvents_fixedFields m
  simp [step, h.2.1]

theorem runFuel_stop (m : AirportModel) (h : ¬ m.current_time ≤ m.simulation_duration) :
    ∀ fuel, runFuel fuel m = m := by
  intro fuel
  cases fuel with
  | zero => rfl
  | succ k => simp [runFuel, h]

theorem runFuel_irrel :
    ∀ fuel g : Nat, ∀ m : AirportModel,
      (m.simulation_duration + 1 - m.current_time).toNat ≤ fuel →
      (m.simulation_duration + 1 - m.current_time).toNat ≤ g →
      runFuel fuel m = runFuel g m := by
  intro fuel
  induction fuel with
  | zero =>
    intro g m hf hg
    have h : ¬ m.current_time ≤ m.simulation_duration := by omega
    rw [runFuel_stop m h, runFuel_stop m h]
  | succ k ih =>
    intro g m hf hg
    by_cases h : m.current_time ≤ m.simulation_duration
    · rcases g with _ | g2
      · exfalso
        omega
      · unfold runFuel
        simp only [h, if_true]
        have h1 := step_current_time m
        have h2 := step_simulation_duration m
        exact ih g2 _ (by omega) (by omega)
    · rw [runFuel_stop m h, runFuel_stop m h]

theorem runLoop_go (m : AirportModel) (h : m.current_time ≤ m.simulation_duration) :
    runLoop m = runLoop (step m) := by
  unfold runLoop
  obtain ⟨k, hk⟩ : ∃ k, (m.simulation_duration + 1 - m.current_time).toNat = k + 1 :=
    ⟨(m.simulation_duration + 1 - m.current_time).toNat - 1, by omega⟩
  rw [hk]
  conv_lhs => rw [runFuel]
  simp only [h, if_true]
  have h1 := step_current_time m
  have h2 := step_simulation_duration m
  apply runFuel_irrel
  · omega
  · exact le_refl _

theorem runLoop_stop (m : AirportModel) (h : ¬ m.current_time ≤ m.simulation_duration) :
    runLoop m = m :=
  runFuel_stop m h _

/-- Generic induction along the driver loop. -/
theorem runLoop_ind (P : AirportModel → Prop)
    (hstep : ∀ m : AirportModel, m.current_time ≤ m.simulation_duration → P m → P (step m)) :
    ∀ m : AirportModel, P m → P (runLoop m) := by
  have key : ∀ n : Nat, ∀ m : AirportModel,
      (m.simulation_duration + 1 - m.current_time).toNat = n → P m → P (runLoop m) := by
    intro n
    induction n using Nat.strong_induction_on with
    | _ n ih =>
      intro m hn hP
      by_cases h : m.current_time ≤ m.simulation_duration
      · rw [runLoop_go m h]
        have h1 := step_current_time m
        have h2 := step_simulation_duration m
        have hlt : ((step m).simulation_duration + 1 - (step m).current_time).toNat < n := by
          omega
        exact ih _ hlt _ rfl (hstep m h hP)
      · rw [runLoop_stop m h]
        exact hP
  intro m
  exact key _ m rfl

/-- The driver loop always ends with the clock strictly past the horizon. -/
theorem runLoop_final (m : AirportModel) :
    ¬ (runLoop m).current_time ≤ (runLoop m).simulation_duration := by
  have key : ∀ n : Nat, ∀ m : AirportModel,
      (m.simulation_duration + 1 - m.current_time).toNat = n →
      ¬ (runLoop m).current_time ≤ (runLoop m).simulation_duration := by
    intro n
    induction n using Nat.strong_induction_on with
    | _ n ih =>
      intro m hn
      by_cases h : m.current_time ≤ m.simulation_duration
      · rw [runLoop_go m h]
        have h1 := step_current_time m
        have h2 := step_simulation_duration m
        have hlt : ((step m).simulation_duration + 1 - (step m).current_time).toNat < n := by
          omega
        exact ih _ hlt _ rfl
      · rw [runLoop_stop m h]
        exact h
  exact key _ m rfl

/-! Reading and rebuilding the per-identifier invariant. -/

theorem idInv_sched {m : AirportModel} {id : String} {ac : AircraftRec}
    (h : idInv m id ac) (hs : ac.state = .scheduled) : schedInv m id ac := by
  have hm := h.2.2.2.2
  rw [hs] at hm
  exact hm

theorem idInv_parked {m : AirportModel} {id : String} {ac : AircraftRec}
    (h : idInv m id ac) (hs : ac.state = .parked) : parkedInv m id ac := by
  have hm := h.2.2.2.2
  rw [hs] at hm
  exact hm

theorem idInv_departed {m : AirportModel} {id : String} {ac : AircraftRec}
    (h : idInv m id ac) (hs : ac.state = .departed) : departedInv m id ac := by
  have hm := h.2.2.2.2
  rw [hs] at hm
  exact hm

/-- Transfer the per-identifier invariant to a state that looks identical
from the viewpoint of this identifier. -/
theorem idInv_congr {m mNew : AirportModel} {id : String} {ac : AircraftRec}
    (h : idInv m id ac)
    (hq : eventsFor mNew.event_queue id = eventsFor m.event_queue id)
    (hr : resultsFor mNew.aircraft_results id = resultsFor m.aircraft_results id)
    (hpm : id ∈ mNew.parked_aircraft ↔ id ∈ m.parked_aircraft)
    (hc : mNew.current_time = m.current_time)
    (hd : mNew.simulation_duration = m.simulation_duration) :
    idInv mNew id ac := by
  obtain ⟨h1, h2, h3, h4, hm⟩ := h
  refine ⟨h1, h2, h3, h4, ?_⟩
  cases hst : ac.state with
  | scheduled =>
    rw [hst] at hm
    obtain ⟨s1, s2, s3, s4, s5⟩ := hm
    exact ⟨s1, by rw [hq]; exact s2, fun hx => s3 (hpm.mp hx), by rw [hr]; exact s4,
           by rw [hc]; exact s5⟩
  | parked =>
    rw [hst] at hm
    obtain ⟨s1, s2, s3, s4, s5, s6⟩ := hm
    exact ⟨s1, by rw [hq]; exact s2, hpm.mpr s3, by rw [hr]; exact s4,
           by rw [hc]; exact s5, by rw [hc]; exact s6⟩
  | departed =>
    rw [hst] at hm
    obtain ⟨s1, s2, s3, s4, s5, s6⟩ := hm
    exact ⟨s1, by rw [hq]; exact s2, fun hx => s3 (hpm.mp hx), by rw [hr]; exact s4,
           by rw [hc]; exact s5, by rw [hd]; exact s6⟩

/-- Every pending event belongs to a created aircraft whose state matches
the event kind, and the event is that aircraft's unique pending event. -/
theorem event_state {m : AirportModel} {e : Event} (hInv : Inv m)
    (he : e ∈ m.event_queue) :
    ∃ ac, dictLookup m.aircraft_by_id e.acId = some ac ∧ idInv m e.acId ac ∧
      ((e.kind = .ARRIVAL ∧ ac.state = .scheduled ∧ e.time = ac.arrival_time) ∨
       (e.kind = .DEPARTURE ∧ ac.state = .parked ∧ e.time = ac.departure_time)) := by
  obtain ⟨ac, hac⟩ := hInv.qKnown e he
  have hid := hInv.perId e.acId ac hac
  refine ⟨ac, hac, hid, ?_⟩
  have hmem : e ∈ eventsFor m.event_queue e.acId :=
    mem_eventsFor.mpr ⟨he, rfl⟩
  cases hst : ac.state with
  | scheduled =>
    have hs := idInv_sched hid hst
    rw [hs.2.1] at hmem
    have heq := List.mem_singleton.mp hmem
    exact Or.inl ⟨by rw [heq], rfl, by rw [heq]⟩
  | parked =>
    have hs := idInv_parked hid hst
    rw [hs.2.1] at hmem
    have heq := List.mem_singleton.mp hmem
    exact Or.inr ⟨by rw [heq], rfl, by rw [heq]⟩
  | departed =>
    have hs := idInv_departed hid hst
    rw [hs.2.1] at hmem
    cases hmem

theorem lookupAssigned_update_self (d : List (String × AircraftRec)) (id : String)
    (v : AircraftRec) : lookupAssigned (dictUpdate d id v) id = v.assigned_stand_type := by
  unfold lookupAssigned
  rw [dictLookup_update_self]

theorem lookupAssigned_update_ne (d : List (String × AircraftRec)) {id id' : String}
    (v : AircraftRec) (h : ¬ id' = id) :
    lookupAssigned (dictUpdate d id v) id' = lookupAssigned d id' := by
  unfold lookupAssigned
  rw [dictLookup_update_ne d v h]

theorem plbCount_update_arrival {d : List (String × AircraftRec)} {l : List String}
    {id : String} (ac : AircraftRec) (s : StandType) (hnp : ¬ id ∈ l) :
    plbCount (dictUpdate d id (assignStand ac s)) (setAdd l id) =
      plbCount d l + (if s = StandType.PLB then 1 else 0) := by
  unfold plbCount
  rw [setAdd_countP _ hnp]
  congr 1
  · apply countP_congr_list
    intro x hx
    have hxe : ¬ x = id := fun hh => hnp (hh ▸ hx)
    simp only [lookupAssigned_update_ne d _ hxe]
  · rw [lookupAssigned_update_self]
    rcases s
    · simp [assignStand]
    · simp [assignStand]

theorem plbCount_update_departure {d : List (String × AircraftRec)} {l : List String}
    {id : String} (ac : AircraftRec) (hnd : l.Nodup) (hmem : id ∈ l)
    (hac : dictLookup d id = some ac) :
    plbCount (dictUpdate d id (acDepart ac)) (setRemove l id) +
      (if ac.assigned_stand_type = some StandType.PLB then 1 else 0) = plbCount d l := by
  unfold plbCount
  have hcongr : (setRemove l id).countP
        (fun a => decide (lookupAssigned (dictUpdate d id (acDepart ac)) a = some StandType.PLB)) =
      (setRemove l id).countP (fun a => decide (lookupAssigned d a = some StandType.PLB)) := by
    apply countP_congr_list
    intro x hx
    have hxe : ¬ x = id := ((mem_setRemove hnd).mp hx).2
    simp only [lookupAssigned_update_ne d _ hxe]
  rw [hcongr]
  have hrem := setRemove_countP
    (fun a => decide (lookupAssigned d a = some StandType.PLB)) hnd hmem
  have hlk : lookupAssigned d id = ac.assigned_stand_type := by
    unfold lookupAssigned
    rw [hac]
  simp only [hlk] at hrem
  by_cases hplb : ac.assigned_stand_type = some StandType.PLB
  · rw [if_pos hplb]
    simpa [hplb] using hrem
  · rw [if_neg hplb]
    simpa [hplb] using hrem

theorem depCount_update {d : List (String × AircraftRec)} {id : String}
    {ac : AircraftRec} (v : AircraftRec) (hac : dictLookup d id = some ac) :
    depCount (dictUpdate d id v) + (if ac.state = ACState.departed then 1 else 0) =
      depCount d + (if v.state = ACState.departed then 1 else 0) := by
  have h := dictUpdate_countP d v (fun p => decide (p.2.state = ACState.departed)) hac
  unfold depCount
  by_cases h1 : ac.state = ACState.departed <;> by_cases h2 : v.state = ACState.departed <;>
    (simp [h1, h2] at h ⊢; omega)

/-- Core of the arrival preservation argument: the state built by
_process_arrival out of a popped due ARRIVAL event satisfies the global
invariant again, for either allocation branch. -/
theorem arrival_core_inv {m : AirportModel} {e : Event} {rest : List Event}
    {ac : AircraftRec} {s : StandType} {avail : Int}
    (hInv : Inv m) (hq : m.event_queue = e :: rest) (ht : e.time = m.current_time)
    (hac : dictLookup m.aircraft_by_id e.acId = some ac)
    (hid : idInv m e.acId ac) (hst : ac.state = .scheduled)
    (hpoolNew : avail = m.plb_total -
      ((plbParkedCount m : Int) + (if s = StandType.PLB then 1 else 0)))
    (hposNew : 0 ≤ avail) :
    Inv { m with plb_available := avail,
                 aircraft_by_id := dictUpdate m.aircraft_by_id e.acId (assignStand ac s),
                 parked_aircraft := setAdd m.parked_aircraft e.acId,
                 event_queue := insort ⟨ac.departure_time, .DEPARTURE, e.acId⟩ rest } := by
  have hs := idInv_sched hid hst
  obtain ⟨hassigned, hevents, hnp, hres, hcur⟩ := hs
  have hemem : e ∈ eventsFor m.event_queue e.acId :=
    mem_eventsFor.mpr ⟨by rw [hq]; exact List.mem_cons_self _ _, rfl⟩
  have harr : ac.arrival_time = m.current_time := by
    rw [hevents] at hemem
    have := List.mem_singleton.mp hemem
    rw [← ht, this]
  have hrest0 : eventsFor rest e.acId = [] := by
    have h2 := hevents
    rw [hq, eventsFor_cons, if_pos rfl] at h2
    injection h2 with h2a h2b
  have hrestne : ∀ id', ¬ id' = e.acId →
      eventsFor rest id' = eventsFor m.event_queue id' := by
    intro id' hne
    rw [hq, eventsFor_cons, if_neg (fun hh => hne hh.symm)]
  have hturn : ac.arrival_time < ac.departure_time := hid.2.2.1
  have hrestSorted : List.Pairwise evLe rest := by
    have := hInv.qSorted
    rw [hq] at this
    exact (List.pairwise_cons.mp this).2
  have hrestFuture : ∀ x ∈ rest, m.current_time ≤ x.time := by
    intro x hx
    exact hInv.qFuture x (by rw [hq]; exact List.mem_cons_of_mem _ hx)
  refine ⟨?_, ?_, ?_, ?_, ?_, ?_, ?_, ?_, ?_, ?_, ?_⟩
  · show (dictUpdate m.aircraft_by_id e.acId (assignStand ac s)).map Prod.fst |>.Nodup
    rw [dictUpdate_keys _ hac]
    exact hInv.keysNodup
  · exact setAdd_nodup hInv.parkedNodup
  · exact insort_sorted hrestSorted
  · intro x hx
    rcases mem_insort.mp hx with rfl | hx
    · show m.current_time ≤ ac.departure_time
      omega
    · exact hrestFuture x hx
  · intro x hx
    rcases mem_insort.mp hx with rfl | hx
    · exact ⟨assignStand ac s, dictLookup_update_self _ _ _⟩
    · obtain ⟨ac2, hac2⟩ := hInv.qKnown x (by rw [hq]; exact List.mem_cons_of_mem _ hx)
      by_cases hxe : x.acId = e.acId
      · rw [hxe]
        exact ⟨assignStand ac s, dictLookup_update_self _ _ _⟩
      · exact ⟨ac2, by rw [dictLookup_update_ne _ _ hxe]; exact hac2⟩
  · intro id' hid'
    rcases mem_setAdd.mp hid' with rfl | hid'
    · exact ⟨assignStand ac s, dictLookup_update_self _ _ _, rfl⟩
    · have hne : ¬ id' = e.acId := fun hh => hnp (hh ▸ hid')
      obtain ⟨ac2, hac2, hs2⟩ := hInv.parkedKnown id' hid'
      exact ⟨ac2, by rw [dictLookup_update_ne _ _ hne]; exact hac2, hs2⟩
  · intro id' ac' hl'
    by_cases hne : id' = e.acId
    · subst hne
      rw [dictLookup_update_self] at hl'
      cases hl'
      refine ⟨hid.1, hid.2.1, hid.2.2.1, hid.2.2.2.1, ?_⟩
      show parkedInv _ e.acId (assignStand ac s)
      refine ⟨⟨s, rfl⟩, ?_, mem_setAdd.mpr (Or.inl rfl), hres, ?_, ?_⟩
      · show eventsFor (insort ⟨ac.departure_time, .DEPARTURE, e.acId⟩ rest) e.acId =
          [⟨(assignStand ac s).departure_time, .DEPARTURE, e.acId⟩]
        exact eventsFor_insort_self _ _ _ rfl hrest0
      · show ac.arrival_time ≤ m.current_time
        omega
      · show m.current_time ≤ ac.departure_time
        omega
    · rw [dictLookup_update_ne _ _ hne] at hl'
      have hidOld := hInv.perId id' ac' hl'
      refine idInv_congr hidOld ?_ rfl ?_ rfl rfl
      · show eventsFor (insort ⟨ac.departure_time, .DEPARTURE, e.acId⟩ rest) id' =
          eventsFor m.event_queue id'
        rw [eventsFor_insort_ne ⟨ac.departure_time, .DEPARTURE, e.acId⟩ rest id'
          (fun hh => hne hh.symm), hrestne id' hne]
      · show id' ∈ setAdd m.parked_aircraft e.acId ↔ id' ∈ m.parked_aircraft
        constructor
        · intro hx
          rcases mem_setAdd.mp hx with rfl | hx
          · exact absurd rfl hne
          · exact hx
        · intro hx
          exact mem_setAdd.mpr (Or.inr hx)
  · exact hInv.timeNonneg
  · show avail = m.plb_total -
      (plbCount (dictUpdate m.aircraft_by_id e.acId (assignStand ac s))
        (setAdd m.parked_aircraft e.acId) : Int)
    rw [plbCount_update_arrival ac s hnp]
    unfold plbParkedCount at hpoolNew
    rcases s
    · simp only [if_true] at hpoolNew ⊢
      push_cast
      omega
    · simp only [reduceCtorEq, if_false] at hpoolNew ⊢
      push_cast
      omega
  · exact hposNew
  · show m.aircraft_results.length =
      depCount (dictUpdate m.aircraft_by_id e.acId (assignStand ac s))
    have hcnt := depCount_update (assignStand ac s) hac
    rw [hst] at hcnt
    have hpk : (assignStand ac s).state = ACState.parked := rfl
    rw [hpk] at hcnt
    simp only [reduceCtorEq, if_false] at hcnt
    rw [hInv.resultsLen]
    unfold departedCount
    omega

/-- Core of the departure preservation argument: the state built by
_process_departure out of a popped due DEPARTURE event satisfies the global
invariant again. -/
theorem departure_core_inv {m : AirportModel} {e : Event} {rest : List Event}
    {ac : AircraftRec}
    (hInv : Inv m) (hq : m.event_queue = e :: rest) (ht : e.time = m.current_time)
    (hcd : m.current_time ≤ m.simulation_duration)
    (hac : dictLookup m.aircraft_by_id e.acId = some ac)
    (hid : idInv m e.acId ac) (hst : ac.state = .parked) :
    Inv { m with
      plb_available :=
        if ac.assigned_stand_type = some StandType.PLB then m.plb_available + 1
        else m.plb_available,
      aircraft_by_id := dictUpdate m.aircraft_by_id e.acId (acDepart ac),
      parked_aircraft := setRemove m.parked_aircraft e.acId,
      aircraft_results := m.aircraft_results ++ [mkResultRow (acDepart ac)],
      event_queue := rest } := by
  have hs := idInv_parked hid hst
  obtain ⟨⟨s, hsome⟩, hevents, hpm, hres, harrle, hcurle⟩ := hs
  have hemem : e ∈ eventsFor m.event_queue e.acId :=
    mem_eventsFor.mpr ⟨by rw [hq]; exact List.mem_cons_self _ _, rfl⟩
  have hdep : ac.departure_time = m.current_time := by
    rw [hevents] at hemem
    have := List.mem_singleton.mp hemem
    rw [← ht, this]
  have hrest0 : eventsFor rest e.acId = [] := by
    have h2 := hevents
    rw [hq, eventsFor_cons, if_pos rfl] at h2
    injection h2 with h2a h2b
  have hrestne : ∀ id', ¬ id' = e.acId →
      eventsFor rest id' = eventsFor m.event_queue id' := by
    intro id' hne
    rw [hq, eventsFor_cons, if_neg (fun hh => hne hh.symm)]
  have hrestSorted : List.Pairwise evLe rest := by
    have := hInv.qSorted
    rw [hq] at this
    exact (List.pairwise_cons.mp this).2
  have hrestFuture : ∀ x ∈ rest, m.current_time ≤ x.time := by
    intro x hx
    exact hInv.qFuture x (by rw [hq]; exact List.mem_cons_of_mem _ hx)
  have hrowid : (mkResultRow (acDepart ac)).aircraft_id = e.acId := hid.1
  refine ⟨?_, ?_, ?_, ?_, ?_, ?_, ?_, ?_, ?_, ?_, ?_⟩
  · show (dictUpdate m.aircraft_by_id e.acId (acDepart ac)).map Prod.fst |>.Nodup
    rw [dictUpdate_keys _ hac]
    exact hInv.keysNodup
  · exact setRemove_nodup hInv.parkedNodup
  · exact hrestSorted
  · exact hrestFuture
  · intro x hx
    obtain ⟨ac2, hac2⟩ := hInv.qKnown x (by rw [hq]; exact List.mem_cons_of_mem _ hx)
    by_cases hxe : x.acId = e.acId
    · rw [hxe]
      exact ⟨acDepart ac, dictLookup_update_self _ _ _⟩
    · exact ⟨ac2, by rw [dictLookup_update_ne _ _ hxe]; exact hac2⟩
  · intro id' hid'
    obtain ⟨hid'mem, hid'ne⟩ := (mem_setRemove hInv.parkedNodup).mp hid'
    obtain ⟨ac2, hac2, hs2⟩ := hInv.parkedKnown id' hid'mem
    exact ⟨ac2, by rw [dictLookup_update_ne _ _ hid'ne]; exact hac2, hs2⟩
  · intro id' ac' hl'
    by_cases hne : id' = e.acId
    · subst hne
      rw [dictLookup_update_self] at hl'
      cases hl'
      refine ⟨hid.1, hid.2.1, hid.2.2.1, hid.2.2.2.1, ?_⟩
      show departedInv _ e.acId (acDepart ac)
      refine ⟨⟨s, hsome⟩, hrest0, ?_, ?_, ?_, ?_⟩
      · intro hx
        exact ((mem_setRemove hInv.parkedNodup).mp hx).2 rfl
      · show resultsFor (m.aircraft_results ++ [mkResultRow (acDepart ac)]) e.acId =
          [mkResultRow (acDepart ac)]
        rw [resultsFor_append, if_pos hrowid, hres]
        rfl
      · show (acDepart ac).departure_time ≤ m.current_time
        rw [show (acDepart ac).departure_time = ac.departure_time from rfl, hdep]
      · show (acDepart ac).departure_time ≤ m.simulation_duration
        rw [show (acDepart ac).departure_time = ac.departure_time from rfl, hdep]
        exact hcd
    · rw [dictLookup_update_ne _ _ hne] at hl'
      have hidOld := hInv.perId id' ac' hl'
      refine idInv_congr hidOld (hrestne id' hne) ?_ ?_ rfl rfl
      · show resultsFor (m.aircraft_results ++ [mkResultRow (acDepart ac)]) id' =
          resultsFor m.aircraft_results id'
        rw [resultsFor_append, if_neg, List.append_nil]
        intro hh
        exact hne (by rw [← hh, hrowid])
      · show id' ∈ setRemove m.parked_aircraft e.acId ↔ id' ∈ m.parked_aircraft
        rw [mem_setRemove hInv.parkedNodup]
        exact ⟨fun hx => hx.1, fun hx => ⟨hx, hne⟩⟩
  · exact hInv.timeNonneg
  · show (if ac.assigned_stand_type = some StandType.PLB then m.plb_available + 1
      else m.plb_available) = m.plb_total -
      (plbCount (dictUpdate m.aircraft_by_id e.acId (acDepart ac))
        (setRemove m.parked_aircraft e.acId) : Int)
    have hcnt := plbCount_update_departure ac hInv.parkedNodup hpm hac
    have hpool := hInv.poolEq
    unfold plbParkedCount at hpool
    by_cases hplb : ac.assigned_stand_type = some StandType.PLB
    · rw [if_pos hplb]
      rw [if_pos hplb] at hcnt
      rw [hpool]
      push_cast [← hcnt]
      ring
    · rw [if_neg hplb]
      rw [if_neg hplb] at hcnt
      rw [hpool]
      push_cast [← hcnt]
      ring
  · show 0 ≤ if ac.assigned_stand_type = some StandType.PLB then m.plb_available + 1
      else m.plb_available
    have := hInv.poolNonneg
    by_cases hplb : ac.assigned_stand_type = some StandType.PLB
    · rw [if_pos hplb]
      omega
    · rw [if_neg hplb]
      omega
  · show (m.aircraft_results ++ [mkResultRow (acDepart ac)]).length =
      depCount (dictUpdate m.aircraft_by_id e.acId (acDepart ac))
    have hcnt := depCount_update (acDepart ac) hac
    rw [hst] at hcnt
    have hdepst : (acDepart ac).state = ACState.departed := rfl
    rw [hdepst] at hcnt
    simp only [reduceCtorEq, if_false, if_true] at hcnt
    rw [List.length_append, hInv.resultsLen]
    unfold departedCount
    simp only [List.length_singleton]
    omega

/-- One due event dispatch preserves the global invariant. -/
theorem dispatch_inv {m : AirportModel} {e : Event} {rest : List Event}
    (hInv : Inv m) (hq : m.event_queue = e :: rest) (ht : e.time = m.current_time)
    (hcd : m.current_time ≤ m.simulation_duration) :
    Inv (dispatchEvent { m with event_queue := rest } e) := by
  obtain ⟨ac, hac, hid, hcase⟩ := event_state hInv (by rw [hq]; exact List.mem_cons_self _ _)
  unfold dispatchEvent
  rcases hcase with ⟨hk, hst, htime⟩ | ⟨hk, hst, htime⟩
  · rw [hk]
    by_cases havail : m.plb_available > 0
    · have hred : processArrival { m with event_queue := rest } e.acId =
          { m with plb_available := m.plb_available - 1,
                   aircraft_by_id := dictUpdate m.aircraft_by_id e.acId
                     (assignStand ac StandType.PLB),
                   parked_aircraft := setAdd m.parked_aircraft e.acId,
                   event_queue := insort ⟨ac.departure_time, .DEPARTURE, e.acId⟩ rest } := by
        unfold processArrival
        rw [show dictLookup ({ m with event_queue := rest } :
          AirportModel).aircraft_by_id e.acId = some ac from hac]
        dsimp only
        rw [if_pos havail]
        rfl
      rw [hred]
      refine arrival_core_inv hInv hq ht hac hid hst ?_ ?_
      · rw [hInv.poolEq]
        norm_num
        ring
      · omega
    · have hred : processArrival { m with event_queue := rest } e.acId =
          { m with plb_available := m.plb_available,
                   aircraft_by_id := dictUpdate m.aircraft_by_id e.acId
                     (assignStand ac StandType.REMOTE),
                   parked_aircraft := setAdd m.parked_aircraft e.acId,
                   event_queue := insort ⟨ac.departure_time, .DEPARTURE, e.acId⟩ rest } := by
        unfold processArrival
        rw [show dictLookup ({ m with event_queue := rest } :
          AirportModel).aircraft_by_id e.acId = some ac from hac]
        dsimp only
        rw [if_neg havail]
        rfl
      rw [hred]
      refine arrival_core_inv hInv hq ht hac hid hst ?_ hInv.poolNonneg
      rw [hInv.poolEq]
      simp only [reduceCtorEq, if_false]
      ring
  · rw [hk]
    have hred : processDeparture { m with event_queue := rest } e.acId =
        { m with
          plb_available :=
            if ac.assigned_stand_type = some StandType.PLB then m.plb_available + 1
            else m.plb_available,
          aircraft_by_id := dictUpdate m.aircraft_by_id e.acId (acDepart ac),
          parked_aircraft := setRemove m.parked_aircraft e.acId,
          aircraft_results := m.aircraft_results ++ [mkResultRow (acDepart ac)],
          event_queue := rest } := by
      unfold processDeparture
      rw [show dictLookup ({ m with event_queue := rest } :
        AirportModel).aircraft_by_id e.acId = some ac from hac]
    rw [hred]
    exact departure_core_inv hInv hq ht hcd hac hid hst

/-- The drain of one minute preserves the invariant (inside the horizon). -/
theorem drain_inv {m : AirportModel} (hInv : Inv m)
    (hcd : m.current_time ≤ m.simulation_duration) :
    Inv (processEventsAtCurrentTime m) := by
  have h := drain_ind (fun x => Inv x ∧ x.current_time ≤ x.simulation_duration)
    (by
      intro m2 e rest hq ht hP
      refine ⟨dispatch_inv hP.1 hq ht hP.2, ?_⟩
      obtain ⟨hd1, hd2, -, -⟩ := dispatch_fixedFields { m2 with event_queue := rest } e
      rw [hd1, hd2]
      exact hP.2)
    m ⟨hInv, hcd⟩
  exact h.1

/-- After the drain, every still-pending event lies strictly in the future. -/
theorem drain_strict {m : AirportModel} (hInv : Inv m)
    (hcd : m.current_time ≤ m.simulation_duration) :
    PostDrain (processEventsAtCurrentTime m) := by
  have hInv1 : Inv (processEventsAtCurrentTime m) := drain_inv hInv hcd
  rcases drain_head_not_due m with hnil | ⟨e, rest, hq2, hne⟩
  · intro x hx
    rw [hnil] at hx
    cases hx
  · intro x hx
    have hfutx := hInv1.qFuture x hx
    rw [hq2] at hx
    rcases List.mem_cons.mp hx with rfl | hx2
    · omega
    · have hsort := hInv1.qSorted
      rw [hq2] at hsort
      have hle : evLe e x := (List.pairwise_cons.mp hsort).1 x hx2
      have htle := evLe_time hle
      have hfute := hInv1.qFuture e (by rw [hq2]; exact List.mem_cons_self _ _)
      omega

/-- One minute step preserves the invariant (inside the horizon). -/
theorem step_inv {m : AirportModel} (hInv : Inv m)
    (hcd : m.current_time ≤ m.simulation_duration) :
    Inv (step m) := by
  have hInv1 : Inv (processEventsAtCurrentTime m) := drain_inv hInv hcd
  have hpost : PostDrain (processEventsAtCurrentTime m) := drain_strict hInv hcd
  show Inv { processEventsAtCurrentTime m with
    minute_results := (processEventsAtCurrentTime m).minute_results ++
      [mkSnapshot (processEventsAtCurrentTime m)],
    current_time := (processEventsAtCurrentTime m).current_time + 1 }
  refine ⟨hInv1.keysNodup, hInv1.parkedNodup, hInv1.qSorted, ?_, hInv1.qKnown,
    hInv1.parkedKnown, ?_, ?_, hInv1.poolEq, hInv1.poolNonneg, hInv1.resultsLen⟩
  · intro x hx
    have := hpost x hx
    show (processEventsAtCurrentTime m).current_time + 1 ≤ x.time
    omega
  · intro id ac hl
    have hidOld := hInv1.perId id ac hl
    obtain ⟨h1, h2, h3, h4, hm⟩ := hidOld
    refine ⟨h1, h2, h3, h4, ?_⟩
    cases hst : ac.state with
    | scheduled =>
      rw [hst] at hm
      obtain ⟨s1, s2, s3, s4, s5⟩ := hm
      refine ⟨s1, s2, s3, s4, ?_⟩
      have hmemq : (⟨ac.arrival_time, .ARRIVAL, id⟩ : Event) ∈
          (processEventsAtCurrentTime m).event_queue := by
        have : (⟨ac.arrival_time, .ARRIVAL, id⟩ : Event) ∈
            eventsFor (processEventsAtCurrentTime m).event_queue id := by
          rw [s2]
          exact List.mem_singleton.mpr rfl
        exact (mem_eventsFor.mp this).1
      have := hpost _ hmemq
      show (processEventsAtCurrentTime m).current_time + 1 ≤ ac.arrival_time
      simp only at this
      omega
    | parked =>
      rw [hst] at hm
      obtain ⟨s1, s2, s3, s4, s5, s6⟩ := hm
      refine ⟨s1, s2, s3, s4, ?_, ?_⟩
      · show ac.arrival_time ≤ (processEventsAtCurrentTime m).current_time + 1
        omega
      · have hmemq : (⟨ac.departure_time, .DEPARTURE, id⟩ : Event) ∈
            (processEventsAtCurrentTime m).event_queue := by
          have : (⟨ac.departure_time, .DEPARTURE, id⟩ : Event) ∈
              eventsFor (processEventsAtCurrentTime m).event_queue id := by
            rw [s2]
            exact List.mem_singleton.mpr rfl
          exact (mem_eventsFor.mp this).1
        have := hpost _ hmemq
        show (processEventsAtCurrentTime m).current_time + 1 ≤ ac.departure_time
        simp only at this
        omega
    | departed =>
      rw [hst] at hm
      obtain ⟨s1, s2, s3, s4, s5, s6⟩ := hm
      refine ⟨s1, s2, s3, s4, ?_, s6⟩
      show ac.departure_time ≤ (processEventsAtCurrentTime m).current_time + 1
      omega
  · show 0 ≤ (processEventsAtCurrentTime m).current_time + 1
    have := hInv1.timeNonneg
    omega

/-- The whole driver loop preserves the invariant. -/
theorem runLoop_inv {m : AirportModel} (hInv : Inv m) : Inv (runLoop m) :=
  runLoop_ind Inv (fun m2 h hP => step_inv hP h) m hInv

/-! The immutable timing data never changes after construction. -/

theorem processArrival_timings (m : AirportModel) (id : String) :
    timings (processArrival m id) = timings m := by
  unfold processArrival
  cases h : dictLookup m.aircraft_by_id id with
  | none => rfl
  | some ac =>
    show timings (scheduleEvent _ _ _ _) = timings m
    unfold timings scheduleEvent
    by_cases havail : m.plb_available > 0
    · rw [if_pos havail]
      exact dictUpdate_timingMap _ h rfl rfl
    · rw [if_neg havail]
      exact dictUpdate_timingMap _ h rfl rfl

theorem processDeparture_timings (m : AirportModel) (id : String) :
    timings (processDeparture m id) = timings m := by
  unfold processDeparture
  cases h : dictLookup m.aircraft_by_id id with
  | none => rfl
  | some ac =>
    unfold timings
    exact dictUpdate_timingMap _ h rfl rfl

theorem dispatch_timings (m : AirportModel) (e : Event) :
    timings (dispatchEvent m e) = timings m := by
  obtain ⟨t, k, i⟩ := e
  cases k with
  | ARRIVAL => exact processArrival_timings m i
  | DEPARTURE => exact processDeparture_timings m i

theorem drain_timings (m : AirportModel) :
    timings (processEventsAtCurrentTime m) = timings m :=
  drain_ind (fun x => timings x = timings m)
    (by
      intro m2 e rest hq ht hP
      rw [dispatch_timings { m2 with event_queue := rest } e]
      exact hP)
    m rfl

theorem step_timings (m : AirportModel) : timings (step m) = timings m := by
  show timings { processEventsAtCurrentTime m with
    minute_results := (processEventsAtCurrentTime m).minute_results ++
      [mkSnapshot (processEventsAtCurrentTime m)],
    current_time := (processEventsAtCurrentTime m).current_time + 1 } = timings m
  rw [show timings { processEventsAtCurrentTime m with
    minute_results := (processEventsAtCurrentTime m).minute_results ++
      [mkSnapshot (processEventsAtCurrentTime m)],
    current_time := (processEventsAtCurrentTime m).current_time + 1 } =
      timings (processEventsAtCurrentTime m) from rfl]
  exact drain_timings m

theorem runLoop_timings (m : AirportModel) : timings (runLoop m) = timings m :=
  runLoop_ind (fun x => timings x = timings m)
    (by
      intro m2 h hP
      rw [step_timings m2]
      exact hP)
    m rfl

/-! Construction: characterization of the initial state. -/

theorem initFold_spec :
    ∀ rows : List InputRow, ∀ acc : AirportModel,
      (∀ r ∈ rows, ¬ r.aircraft_id ∈ acc.aircraft_by_id.map Prod.fst) →
      (rows.map (fun r => r.aircraft_id)).Nodup →
      (rows.foldl initStep acc).plb_total = acc.plb_total ∧
      (rows.foldl initStep acc).plb_available = acc.plb_available ∧
      (rows.foldl initStep acc).simulation_duration = acc.simulation_duration ∧
      (rows.foldl initStep acc).current_time = acc.current_time ∧
      (rows.foldl initStep acc).parked_aircraft = acc.parked_aircraft ∧
      (rows.foldl initStep acc).aircraft_results = acc.aircraft_results ∧
      (rows.foldl initStep acc).minute_results = acc.minute_results ∧
      (rows.foldl initStep acc).aircraft_by_id = acc.aircraft_by_id ++ rows.map entryOf ∧
      (List.Pairwise evLe acc.event_queue →
        List.Pairwise evLe (rows.foldl initStep acc).event_queue) ∧
      List.Perm (rows.foldl initStep acc).event_queue
        (acc.event_queue ++ rows.map arrEv) := by
  intro rows
  induction rows with
  | nil =>
    intro acc hfresh hnd
    refine ⟨rfl, rfl, rfl, rfl, rfl, rfl, rfl, by simp, fun h => h, by simp⟩
  | cons r rs ih =>
    intro acc hfresh hnd
    have hrfresh : ¬ r.aircraft_id ∈ acc.aircraft_by_id.map Prod.fst :=
      hfresh r (List.mem_cons_self _ _)
    have hacc2dict : (initStep acc r).aircraft_by_id =
        acc.aircraft_by_id ++ [entryOf r] := by
      show dictUpdate acc.aircraft_by_id r.aircraft_id
        (mkAircraft r.aircraft_id r.arrival_time r.turnaround_time) =
        acc.aircraft_by_id ++ [entryOf r]
      exact dictUpdate_not_mem _ hrfresh
    have hacc2q : (initStep acc r).event_queue = insort (arrEv r) acc.event_queue := rfl
    simp only [List.map_cons, List.nodup_cons] at hnd
    have hfresh2 : ∀ r2 ∈ rs, ¬ r2.aircraft_id ∈ (initStep acc r).aircraft_by_id.map Prod.fst := by
      intro r2 hr2
      rw [hacc2dict]
      simp only [List.map_append, List.mem_append]
      rintro (hin | hin)
      · exact hfresh r2 (List.mem_cons_of_mem _ hr2) hin
      · simp only [entryOf, List.map_cons, List.map_nil, List.mem_singleton] at hin
        exact hnd.1 (hin ▸ List.mem_map.mpr ⟨r2, hr2, rfl⟩)
    obtain ⟨g1, g2, g3, g4, g5, g6, g7, g8, g9, g10⟩ := ih (initStep acc r) hfresh2 hnd.2
    refine ⟨g1, g2, g3, g4, g5, g6, g7, ?_, ?_, ?_⟩
    · show (rs.foldl initStep (initStep acc r)).aircraft_by_id = _
      rw [g8, hacc2dict]
      simp [List.append_assoc]
    · intro hsorted
      apply g9
      rw [hacc2q]
      exact insort_sorted hsorted
    · show List.Perm (rs.foldl initStep (initStep acc r)).event_queue _
      refine g10.trans ?_
      rw [hacc2q]
      have h1 : List.Perm (insort (arrEv r) acc.event_queue ++ rs.map arrEv)
          ((arrEv r :: acc.event_queue) ++ rs.map arrEv) :=
        (insort_perm (arrEv r) acc.event_queue).append_right _
      refine h1.trans ?_
      simp only [List.map_cons, List.cons_append]
      exact List.perm_middle.symm

/-- Summary of the constructed model: configuration copied, clock at zero,
all result streams empty, one dict entry and one seeded ARRIVAL per row. -/
theorem initModel_spec (rows : List InputRow) (plb dur : Int)
    (hnd : (rows.map (fun r => r.aircraft_id)).Nodup) :
    (initModel rows plb dur).plb_total = plb ∧
    (initModel rows plb dur).plb_available = plb ∧
    (initModel rows plb dur).simulation_duration = dur ∧
    (initModel rows plb dur).current_time = 0 ∧
    (initModel rows plb dur).parked_aircraft = [] ∧
    (initModel rows plb dur).aircraft_results = [] ∧
    (initModel rows plb dur).minute_results = [] ∧
    (initModel rows plb dur).aircraft_by_id = rows.map entryOf ∧
    List.Pairwise evLe (initModel rows plb dur).event_queue ∧
    List.Perm (initModel rows plb dur).event_queue (rows.map arrEv) := by
  unfold initModel
  have h := initFold_spec rows ⟨plb, plb, dur, 0, [], [], [], [], []⟩
    (by intro r hr; simp) hnd
  obtain ⟨h1, h2, h3, h4, h5, h6, h7, h8, h9, h10⟩ := h
  refine ⟨h1, h2, h3, h4, h5, h6, h7, ?_, h9 List.Pairwise.nil, ?_⟩
  · rw [h8]
    simp
  · refine h10.trans ?_
    simp

theorem rows_filter_singleton {rows : List InputRow} {r : InputRow}
    (hnd : (rows.map (fun x => x.aircraft_id)).Nodup) (hmem : r ∈ rows) :
    rows.filter (fun x => decide (x.aircraft_id = r.aircraft_id)) = [r] := by
  induction rows with
  | nil => cases hmem
  | cons a t ih =>
    simp only [List.map_cons, List.nodup_cons] at hnd
    rcases List.mem_cons.mp hmem with rfl | hmem2
    · rw [List.filter_cons_of_pos (by simp)]
      have hnil : t.filter (fun x => decide (x.aircraft_id = r.aircraft_id)) = [] := by
        rw [List.filter_eq_nil_iff]
        intro x hx
        simp only [decide_eq_true_eq]
        intro hh
        exact hnd.1 (hh ▸ List.mem_map.mpr ⟨x, hx, rfl⟩)
      rw [hnil]
    · have hne : ¬ a.aircraft_id = r.aircraft_id := by
        intro hh
        exact hnd.1 (hh ▸ List.mem_map.mpr ⟨r, hmem2, rfl⟩)
      rw [List.filter_cons_of_neg (by simp [hne])]
      exact ih hnd.2 hmem2

theorem eventsFor_map_arrEv (rows : List InputRow) (id : String) :
    eventsFor (rows.map arrEv) id =
      (rows.filter (fun x => decide (x.aircraft_id = id))).map arrEv := by
  unfold eventsFor
  rw [List.filter_map]
  rfl

/-- Well-formed input and a non-negative stand count put the constructed
model inside the invariant. -/
theorem initModel_inv (rows : List InputRow) (plb dur : Int)
    (hWF : WFInput rows) (hplb : 0 ≤ plb) :
    Inv (initModel rows plb dur) := by
  obtain ⟨hnd, hrows⟩ := hWF
  obtain ⟨h1, h2, h3, h4, h5, h6, h7, h8, h9, h10⟩ := initModel_spec rows plb dur hnd
  have hqmem : ∀ x ∈ (initModel rows plb dur).event_queue, ∃ r ∈ rows, arrEv r = x := by
    intro x hx
    have := h10.mem_iff.mp hx
    exact List.mem_map.mp this
  refine ⟨?_, ?_, h9, ?_, ?_, ?_, ?_, ?_, ?_, ?_, ?_⟩
  · rw [h8, List.map_map]
    exact hnd
  · rw [h5]
    exact List.nodup_nil
  · intro x hx
    obtain ⟨r, hr, hx⟩ := hqmem x hx
    rw [h4, ← hx]
    exact (hrows r hr).1
  · intro x hx
    obtain ⟨r, hr, hx⟩ := hqmem x hx
    apply dictLookup_some_of_mem_keys
    rw [h8, List.map_map, ← hx]
    exact List.mem_map.mpr ⟨r, hr, rfl⟩
  · intro id hid
    rw [h5] at hid
    cases hid
  · intro id ac hl
    have hl8 := hl
    rw [h8] at hl8
    have hmem := dictLookup_mem hl8
    obtain ⟨r, hr, heq⟩ := List.mem_map.mp hmem
    have hidr : r.aircraft_id = id := congrArg Prod.fst heq
    have hacr : ac = mkAircraft r.aircraft_id r.arrival_time r.turnaround_time :=
      (congrArg Prod.snd heq).symm
    subst hacr
    subst hidr
    refine ⟨rfl, rfl, ?_, (hrows r hr).1, ?_⟩
    · show r.arrival_time < r.arrival_time + r.turnaround_time
      have := (hrows r hr).2
      omega
    · show schedInv _ r.aircraft_id
        (mkAircraft r.aircraft_id r.arrival_time r.turnaround_time)
      refine ⟨rfl, ?_, ?_, ?_, ?_⟩
      · have hperm : List.Perm
            (eventsFor (initModel rows plb dur).event_queue r.aircraft_id)
            (eventsFor (rows.map arrEv) r.aircraft_id) :=
          h10.filter _
        rw [eventsFor_map_arrEv, rows_filter_singleton hnd hr] at hperm
        exact List.perm_singleton.mp hperm
      · rw [h5]
        exact List.not_mem_nil r.aircraft_id
      · rw [h6]
        rfl
      · rw [h4]
        exact (hrows r hr).1
  · rw [h4]
  · show (initModel rows plb dur).plb_available =
      (initModel rows plb dur).plb_total -
        (plbCount (initModel rows plb dur).aircraft_by_id
          (initModel rows plb dur).parked_aircraft : Int)
    rw [h1, h2, h5]
    simp [plbCount]
  · rw [h2]
    exact hplb
  · show (initModel rows plb dur).aircraft_results.length =
      depCount (initModel rows plb dur).aircraft_by_id
    rw [h6, h8]
    unfold depCount
    rw [eq_comm, List.length_nil]
    rw [List.countP_eq_zero]
    intro p hp
    obtain ⟨r, hr, heq⟩ := List.mem_map.mp hp
    rw [← heq]
    simp [entryOf, mkAircraft]

/-! Snapshot-level consequences of the invariant. -/

theorem length_le_countP {S : List String} {d : List (String × AircraftRec)}
    (hS : S.Nodup) (p : String × AircraftRec → Bool)
    (h : ∀ x ∈ S, ∃ ac, dictLookup d x = some ac ∧ p (x, ac) = true) :
    S.length ≤ d.countP p := by
  have hsub : ∀ x ∈ S, x ∈ (d.filter p).map Prod.fst := by
    intro x hx
    obtain ⟨ac, hac, hp⟩ := h x hx
    exact List.mem_map.mpr ⟨(x, ac), List.mem_filter.mpr ⟨dictLookup_mem hac, hp⟩, rfl⟩
  have hcard : S.toFinset ⊆ ((d.filter p).map Prod.fst).toFinset := by
    intro x hx
    rw [List.mem_toFinset] at hx ⊢
    exact hsub x hx
  calc S.length = S.toFinset.card := (List.toFinset_card_of_nodup hS).symm
    _ ≤ ((d.filter p).map Prod.fst).toFinset.card := Finset.card_le_card hcard
    _ ≤ ((d.filter p).map Prod.fst).length := List.toFinset_card_le _
    _ = (d.filter p).length := List.length_map _ _
    _ = d.countP p := (List.countP_eq_length_filter _ _).symm

theorem nodup_length_eq_countP {S : List String} {d : List (String × AircraftRec)}
    (hS : S.Nodup) (hd : (d.map Prod.fst).Nodup) (p : String × AircraftRec → Bool)
    (h : ∀ x, x ∈ S ↔ ∃ ac, dictLookup d x = some ac ∧ p (x, ac) = true) :
    S.length = d.countP p := by
  have hkeys : ((d.filter p).map Prod.fst).Nodup :=
    ((List.filter_sublist d).map Prod.fst).nodup hd
  have hmem : ∀ x, x ∈ S ↔ x ∈ (d.filter p).map Prod.fst := by
    intro x
    rw [h x]
    constructor
    · rintro ⟨ac, hac, hp⟩
      exact List.mem_map.mpr ⟨(x, ac), List.mem_filter.mpr ⟨dictLookup_mem hac, hp⟩, rfl⟩
    · intro hx
      obtain ⟨⟨k, ac⟩, hkac, hfst⟩ := List.mem_map.mp hx
      cases hfst
      obtain ⟨hmem2, hp⟩ := List.mem_filter.mp hkac
      exact ⟨ac, mem_dictLookup hd hmem2, hp⟩
  have hfin : S.toFinset = ((d.filter p).map Prod.fst).toFinset := by
    apply Finset.ext
    intro x
    rw [List.mem_toFinset, List.mem_toFinset]
    exact hmem x
  calc S.length = S.toFinset.card := (List.toFinset_card_of_nodup hS).symm
    _ = ((d.filter p).map Prod.fst).toFinset.card := by rw [hfin]
    _ = ((d.filter p).map Prod.fst).length := List.toFinset_card_of_nodup hkeys
    _ = (d.filter p).length := List.length_map _ _
    _ = d.countP p := (List.countP_eq_length_filter _ _).symm

/-- In a post-drain invariant state the parked set counts exactly the
aircraft whose half-open occupancy interval contains the current minute. -/
theorem parked_length_eq {m : AirportModel} (hInv : Inv m) (hpost : PostDrain m) :
    m.parked_aircraft.length = m.aircraft_by_id.countP
      (fun p => decide (p.2.arrival_time ≤ m.current_time ∧
        m.current_time < p.2.arrival_time + p.2.turnaround_time)) := by
  apply nodup_length_eq_countP hInv.parkedNodup hInv.keysNodup
  intro x
  constructor
  · intro hx
    obtain ⟨ac, hac, hst⟩ := hInv.parkedKnown x hx
    have hid := hInv.perId x ac hac
    have hp := idInv_parked hid hst
    refine ⟨ac, hac, ?_⟩
    simp only [decide_eq_true_eq]
    have hdepq : (⟨ac.departure_time, .DEPARTURE, x⟩ : Event) ∈ m.event_queue := by
      have : (⟨ac.departure_time, .DEPARTURE, x⟩ : Event) ∈ eventsFor m.event_queue x := by
        rw [hp.2.1]
        exact List.mem_singleton.mpr rfl
      exact (mem_eventsFor.mp this).1
    have hfut := hpost _ hdepq
    simp only at hfut
    have hdt := hid.2.1
    have harr := hp.2.2.2.2.1
    constructor
    · exact harr
    · omega
  · rintro ⟨ac, hac, hp⟩
    simp only [decide_eq_true_eq] at hp
    have hid := hInv.perId x ac hac
    have hdt := hid.2.1
    cases hst : ac.state with
    | scheduled =>
      exfalso
      have hs := idInv_sched hid hst
      have harrq : (⟨ac.arrival_time, .ARRIVAL, x⟩ : Event) ∈ m.event_queue := by
        have : (⟨ac.arrival_time, .ARRIVAL, x⟩ : Event) ∈ eventsFor m.event_queue x := by
          rw [hs.2.1]
          exact List.mem_singleton.mpr rfl
        exact (mem_eventsFor.mp this).1
      have hfut := hpost _ harrq
      simp only at hfut
      omega
    | parked =>
      exact (idInv_parked hid hst).2.2.1
    | departed =>
      exfalso
      have hs := idInv_departed hid hst
      have hle := hs.2.2.2.2.1
      omega

/-- Timing-level occupancy predicate for the per-minute count. -/
theorem countP_timings_interval (m : AirportModel) (t : Int) :
    m.aircraft_by_id.countP
      (fun p => decide (p.2.arrival_time ≤ t ∧ t < p.2.arrival_time + p.2.turnaround_time)) =
    (timings m).countP (fun tr => decide (tr.2.1 ≤ t ∧ t < tr.2.1 + tr.2.2)) := by
  unfold timings
  rw [List.countP_map]
  rfl

theorem rowTimings_interval (rows : List InputRow) (t : Int) :
    (rowTimings rows).countP (fun tr => decide (tr.2.1 ≤ t ∧ t < tr.2.1 + tr.2.2)) =
      inIntervalCount rows t := by
  unfold rowTimings inIntervalCount
  rw [List.countP_map]
  rfl

theorem initModel_timings (rows : List InputRow) (plb dur : Int)
    (hnd : (rows.map (fun r => r.aircraft_id)).Nodup) :
    timings (initModel rows plb dur) = rowTimings rows := by
  obtain ⟨-, -, -, -, -, -, -, h8, -, -⟩ := initModel_spec rows plb dur hnd
  unfold timings rowTimings
  rw [h8, List.map_map]
  rfl

theorem step_plb_total (m : AirportModel) : (step m).plb_total = m.plb_total := by
  have h := processEvents_fixedFields m
  simp [step, h.2.2.1]

theorem runLoop_duration (m : AirportModel) :
    (runLoop m).simulation_duration = m.simulation_duration :=
  runLoop_ind (fun x => x.simulation_duration = m.simulation_duration)
    (by
      intro m2 h hP
      rw [step_simulation_duration m2]
      exact hP)
    m rfl

theorem runLoop_plb_total (m : AirportModel) :
    (runLoop m).plb_total = m.plb_total :=
  runLoop_ind (fun x => x.plb_total = m.plb_total)
    (by
      intro m2 h hP
      rw [step_plb_total m2]
      exact hP)
    m rfl

theorem step_minutes (m : AirportModel) :
    (step m).minute_results = m.minute_results ++
      [mkSnapshot (processEventsAtCurrentTime m)] := by
  have h := processEvents_fixedFields m
  show (processEventsAtCurrentTime m).minute_results ++
      [mkSnapshot (processEventsAtCurrentTime m)] = _
  rw [h.2.2.2]

/-- Every snapshot appended during the driver loop satisfies any property
that the drained state guarantees. -/
theorem runLoop_minutes_prop (T : List (String × Int × Int)) (TT : Int)
    (Q : MinuteRow → Prop)
    (hQ : ∀ m2 : AirportModel, Inv m2 → timings m2 = T → m2.plb_total = TT →
      m2.current_time ≤ m2.simulation_duration →
      Q (mkSnapshot (processEventsAtCurrentTime m2))) :
    ∀ m : AirportModel, Inv m → timings m = T → m.plb_total = TT →
      (∀ row ∈ m.minute_results, Q row) →
      ∀ row ∈ (runLoop m).minute_results, Q row := by
  intro m hInv htim htot hrows
  have h := runLoop_ind (fun x => Inv x ∧ timings x = T ∧ x.plb_total = TT ∧
      ∀ row ∈ x.minute_results, Q row)
    (by
      intro m2 hguard hP
      refine ⟨step_inv hP.1 hguard, ?_, ?_, ?_⟩
      · rw [step_timings]
        exact hP.2.1
      · rw [step_plb_total]
        exact hP.2.2.1
      · intro row hrow
        rw [step_minutes] at hrow
        rcases List.mem_append.mp hrow with hold | hnew
        · exact hP.2.2.2 row hold
        · rw [List.mem_singleton.mp hnew]
          exact hQ m2 hP.1 hP.2.1 hP.2.2.1 hguard)
    m ⟨hInv, htim, htot, hrows⟩
  exact h.2.2.2

/-! The per-minute output covers exactly the minutes 0..horizon, in order. -/

theorem intRange_zero (t : Int) : intRange t 0 = [] := rfl

theorem intRange_succ (t : Int) (n : Nat) :
    intRange t (n + 1) = t :: intRange (t + 1) n := by
  unfold intRange
  rw [List.range_succ_eq_map, List.map_cons, List.map_map]
  congr 1
  · simp
  · apply List.map_congr_left
    intro i hi
    show t + Int.ofNat (i + 1) = (t + 1) + Int.ofNat i
    simp only [Int.ofNat_eq_coe]
    push_cast
    ring

theorem intRange_length (t : Int) (n : Nat) : (intRange t n).length = n := by
  simp [intRange]

theorem intRange_chain (t : Int) (n : Nat) :
    List.Chain' (fun a b : Int => a < b) (intRange t n) := by
  induction n generalizing t with
  | zero => exact List.chain'_nil
  | succ k ih =>
    rw [intRange_succ]
    cases k with
    | zero => simp [intRange]
    | succ k2 =>
      rw [intRange_succ, List.chain'_cons]
      refine ⟨by omega, ?_⟩
      rw [← intRange_succ]
      exact ih (t + 1)

theorem mem_intRange {t x : Int} {n : Nat} :
    x ∈ intRange t n ↔ t ≤ x ∧ x < t + n := by
  unfold intRange
  simp only [List.mem_map, List.mem_range, Int.ofNat_eq_coe]
  constructor
  · rintro ⟨i, hi, rfl⟩
    omega
  · intro hx
    refine ⟨(x - t).toNat, by omega, by omega⟩

theorem runLoop_minutes_times (m : AirportModel) :
    (runLoop m).minute_results.map (fun row => row.current_time) =
      m.minute_results.map (fun row => row.current_time) ++
        intRange m.current_time (m.simulation_duration + 1 - m.current_time).toNat := by
  have key : ∀ n : Nat, ∀ m : AirportModel,
      (m.simulation_duration + 1 - m.current_time).toNat = n →
      (runLoop m).minute_results.map (fun row => row.current_time) =
        m.minute_results.map (fun row => row.current_time) ++
          intRange m.current_time (m.simulation_duration + 1 - m.current_time).toNat := by
    intro n
    induction n using Nat.strong_induction_on with
    | _ n ih =>
      intro m hn
      by_cases h : m.current_time ≤ m.simulation_duration
      · rw [runLoop_go m h]
        have h1 := step_current_time m
        have h2 := step_simulation_duration m
        have hlt : ((step m).simulation_duration + 1 - (step m).current_time).toNat < n := by
          omega
        rw [ih _ hlt _ rfl]
        rw [step_minutes, h1, h2]
        have hfix := processEvents_fixedFields m
        have hsnap : (mkSnapshot (processEventsAtCurrentTime m)).current_time =
            m.current_time := hfix.1
        rw [List.map_append, List.map_cons, List.map_nil, hsnap]
        have hk : (m.simulation_duration + 1 - m.current_time).toNat =
            ((m.simulation_duration + 1 - (m.current_time + 1)).toNat) + 1 := by
          omega
        rw [hk, intRange_succ]
        simp [List.append_assoc]
      · rw [runLoop_stop m h]
        have hz : (m.simulation_duration + 1 - m.current_time).toNat = 0 := by
          omega
        rw [hz, intRange_zero, List.append_nil]
  exact key _ m rfl

/-! Scalar fields of the constructed model, with no input hypotheses. -/

theorem initFold_fixed :
    ∀ rows : List InputRow, ∀ acc : AirportModel,
      (rows.foldl initStep acc).plb_total = acc.plb_total ∧
      (rows.foldl initStep acc).plb_available = acc.plb_available ∧
      (rows.foldl initStep acc).simulation_duration = acc.simulation_duration ∧
      (rows.foldl initStep acc).current_time = acc.current_time ∧
      (rows.foldl initStep acc).parked_aircraft = acc.parked_aircraft ∧
      (rows.foldl initStep acc).aircraft_results = acc.aircraft_results ∧
      (rows.foldl initStep acc).minute_results = acc.minute_results := by
  intro rows
  induction rows with
  | nil =>
    intro acc
    exact ⟨rfl, rfl, rfl, rfl, rfl, rfl, rfl⟩
  | cons r rs ih =>
    intro acc
    exact ih (initStep acc r)

theorem initModel_fixed (rows : List InputRow) (plb dur : Int) :
    (initModel rows plb dur).plb_total = plb ∧
    (initModel rows plb dur).plb_available = plb ∧
    (initModel rows plb dur).simulation_duration = dur ∧
    (initModel rows plb dur).current_time = 0 ∧
    (initModel rows plb dur).parked_aircraft = [] ∧
    (initModel rows plb dur).aircraft_results = [] ∧
    (initModel rows plb dur).minute_results = [] := by
  unfold initModel
  exact initFold_fixed rows _

/-! Facts about the final state of a full run. -/

theorem map_fst_timings (m : AirportModel) :
    (timings m).map (fun tr => tr.1) = m.aircraft_by_id.map Prod.fst := by
  unfold timings
  rw [List.map_map]
  rfl

theorem rowTimings_fst (rows : List InputRow) :
    (rowTimings rows).map (fun tr => tr.1) = rows.map (fun r => r.aircraft_id) := by
  unfold rowTimings
  rw [List.map_map]
  rfl

theorem timings_lookup {m : AirportModel} {rows : List InputRow}
    (htim : timings m = rowTimings rows)
    (hnd : (rows.map (fun r => r.aircraft_id)).Nodup)
    {r : InputRow} (hr : r ∈ rows) :
    ∃ ac, dictLookup m.aircraft_by_id r.aircraft_id = some ac ∧
      ac.arrival_time = r.arrival_time ∧ ac.turnaround_time = r.turnaround_time := by
  have hkeys : m.aircraft_by_id.map Prod.fst = rows.map (fun r => r.aircraft_id) := by
    rw [← map_fst_timings, htim, rowTimings_fst]
  obtain ⟨ac, hac⟩ := dictLookup_some_of_mem_keys
    (by rw [hkeys]; exact List.mem_map.mpr ⟨r, hr, rfl⟩)
  have hmem := dictLookup_mem hac
  have htin : (r.aircraft_id, ac.arrival_time, ac.turnaround_time) ∈ timings m :=
    List.mem_map.mpr ⟨(r.aircraft_id, ac), hmem, rfl⟩
  rw [htim] at htin
  obtain ⟨r', hr', heq⟩ := List.mem_map.mp htin
  have hrid : r'.aircraft_id = r.aircraft_id := congrArg (fun tr => tr.1) heq
  have hreq : r' = r := by
    have hinj := List.inj_on_of_nodup_map hnd
    exact hinj hr' hr hrid
  subst hreq
  refine ⟨ac, hac, ?_, ?_⟩
  · exact (congrArg (fun tr => tr.2.1) heq).symm
  · exact (congrArg (fun tr => tr.2.2) heq).symm

theorem runSim_inv (rows : List InputRow) (plb dur : Int)
    (hWF : WFInput rows) (hplb : 0 ≤ plb) :
    Inv (runSimulation rows plb dur) :=
  runLoop_inv (initModel_inv rows plb dur hWF hplb)

theorem runSim_timings (rows : List InputRow) (plb dur : Int)
    (hnd : (rows.map (fun r => r.aircraft_id)).Nodup) :
    timings (runSimulation rows plb dur) = rowTimings rows := by
  unfold runSimulation
  rw [runLoop_timings, initModel_timings rows plb dur hnd]

theorem runSim_duration (rows : List InputRow) (plb dur : Int) :
    (runSimulation rows plb dur).simulation_duration = dur := by
  unfold runSimulation
  rw [runLoop_duration]
  exact (initModel_fixed rows plb dur).2.2.1

theorem runSim_plb_total (rows : List InputRow) (plb dur : Int) :
    (runSimulation rows plb dur).plb_total = plb := by
  unfold runSimulation
  rw [runLoop_plb_total]
  exact (initModel_fixed rows plb dur).1

/-! Shape of the dict after one handler, and stand-class stability. -/

theorem processArrival_dict (m : AirportModel) (id0 : String) :
    (processArrival m id0).aircraft_by_id = m.aircraft_by_id ∨
    ∃ ac s, dictLookup m.aircraft_by_id id0 = some ac ∧
      (processArrival m id0).aircraft_by_id =
        dictUpdate m.aircraft_by_id id0 (assignStand ac s) ∧
      (s = StandType.PLB ↔ m.plb_available > 0) := by
  unfold processArrival
  cases h : dictLookup m.aircraft_by_id id0 with
  | none => exact Or.inl rfl
  | some ac =>
    by_cases havail : m.plb_available > 0
    · refine Or.inr ⟨ac, .PLB, rfl, ?_, ⟨fun _ => havail, fun _ => rfl⟩⟩
      simp [scheduleEvent, havail]
    · refine Or.inr ⟨ac, .REMOTE, rfl, ?_, ⟨fun hh => absurd hh (by decide),
        fun hh => absurd hh havail⟩⟩
      simp [scheduleEvent, havail]

theorem processDeparture_dict (m : AirportModel) (id0 : String) :
    (processDeparture m id0).aircraft_by_id = m.aircraft_by_id ∨
    ∃ ac, dictLookup m.aircraft_by_id id0 = some ac ∧
      (processDeparture m id0).aircraft_by_id =
        dictUpdate m.aircraft_by_id id0 (acDepart ac) := by
  unfold processDeparture
  cases h : dictLookup m.aircraft_by_id id0 with
  | none => exact Or.inl rfl
  | some ac => exact Or.inr ⟨ac, rfl, rfl⟩

/-- A recorded stand class never changes through any later event dispatch. -/
theorem dispatch_assigned_stable {m : AirportModel} {e : Event} {rest : List Event}
    (hInv : Inv m) (hq : m.event_queue = e :: rest) (ht : e.time = m.current_time)
    {id : String} {v : StandType}
    (hv : lookupAssigned m.aircraft_by_id id = some v) :
    lookupAssigned (dispatchEvent { m with event_queue := rest } e).aircraft_by_id id =
      some v := by
  obtain ⟨ac, hac, hid, hcase⟩ := event_state hInv (by rw [hq]; exact List.mem_cons_self _ _)
  unfold dispatchEvent
  rcases hcase with ⟨hk, hst, -⟩ | ⟨hk, hst, -⟩
  · rw [hk]
    rcases processArrival_dict { m with event_queue := rest } e.acId with hdict |
        ⟨ac2, s, hac2, hdict, -⟩
    · rw [hdict]
      exact hv
    · rw [hdict]
      by_cases hne : id = e.acId
      · exfalso
        subst hne
        have hs := idInv_sched hid hst
        have hnone : lookupAssigned m.aircraft_by_id e.acId = none := by
          unfold lookupAssigned
          rw [hac]
          exact hs.1
        rw [hnone] at hv
        cases hv
      · rw [lookupAssigned_update_ne _ _ hne]
        exact hv
  · rw [hk]
    rcases processDeparture_dict { m with event_queue := rest } e.acId with hdict |
        ⟨ac2, hac2, hdict⟩
    · rw [hdict]
      exact hv
    · rw [hdict]
      by_cases hne : id = e.acId
      · subst hne
        rw [lookupAssigned_update_self]
        have hac2m : dictLookup m.aircraft_by_id e.acId = some ac2 := hac2
        show ac2.assigned_stand_type = some v
        have hlka : lookupAssigned m.aircraft_by_id e.acId = ac2.assigned_stand_type := by
          unfold lookupAssigned
          rw [hac2m]
        rw [← hlka]
        exact hv
      · rw [lookupAssigned_update_ne _ _ hne]
        exact hv

theorem step_dict (m : AirportModel) :
    (step m).aircraft_by_id = (processEventsAtCurrentTime m).aircraft_by_id := rfl

theorem runLoop_assigned_stable {m : AirportModel} {id : String} {v : StandType}
    (hInv : Inv m) (hv : lookupAssigned m.aircraft_by_id id = some v) :
    lookupAssigned (runLoop m).aircraft_by_id id = some v := by
  have h := runLoop_ind
    (fun x => Inv x ∧ lookupAssigned x.aircraft_by_id id = some v)
    (by
      intro m2 hguard hP
      refine ⟨step_inv hP.1 hguard, ?_⟩
      rw [step_dict]
      have hdr := drain_ind
        (fun x => Inv x ∧ x.current_time ≤ x.simulation_duration ∧
          lookupAssigned x.aircraft_by_id id = some v)
        (by
          intro m3 e rest hq ht hP3
          refine ⟨dispatch_inv hP3.1 hq ht hP3.2.1, ?_, ?_⟩
          · obtain ⟨hd1, hd2, -, -⟩ := dispatch_fixedFields { m3 with event_queue := rest } e
            rw [hd1, hd2]
            exact hP3.2.1
          · exact dispatch_assigned_stable hP3.1 hq ht hP3.2.2)
        m2 ⟨hP.1, hguard, hP.2⟩
      exact hdr.2.2)
    m ⟨hInv, hv⟩
  exact h.2

/-! With zero PLB stands every assignment is REMOTE. -/

theorem dispatch_no_plb {m : AirportModel} {e : Event} {rest : List Event}
    (hInv : Inv m) (hq : m.event_queue = e :: rest) (ht : e.time = m.current_time)
    (htot : m.plb_total = 0)
    (hall : ∀ id2, ¬ lookupAssigned m.aircraft_by_id id2 = some StandType.PLB) :
    ∀ id2, ¬ lookupAssigned
      (dispatchEvent { m with event_queue := rest } e).aircraft_by_id id2 =
        some StandType.PLB := by
  have havail : ¬ m.plb_available > 0 := by
    have h1 := hInv.poolEq
    have h2 : (0 : Int) ≤ (plbParkedCount m : Int) := Int.natCast_nonneg _
    omega
  intro id2
  unfold dispatchEvent
  obtain ⟨t0, k0, i0⟩ := e
  cases k0 with
  | ARRIVAL =>
    show ¬ lookupAssigned (processArrival { m with event_queue := rest } i0).aircraft_by_id
      id2 = some StandType.PLB
    rcases processArrival_dict { m with event_queue := rest } i0 with hdict |
        ⟨ac2, s, hac2, hdict, hiff⟩
    · rw [hdict]
      exact hall id2
    · rw [hdict]
      have hsR : ¬ s = StandType.PLB := fun hh => havail (hiff.mp hh)
      by_cases hne : id2 = i0
      · subst hne
        rw [lookupAssigned_update_self]
        show ¬ some s = some StandType.PLB
        intro hh
        exact hsR (Option.some.inj hh)
      · rw [lookupAssigned_update_ne _ _ hne]
        exact hall id2
  | DEPARTURE =>
    show ¬ lookupAssigned (processDeparture { m with event_queue := rest } i0).aircraft_by_id
      id2 = some StandType.PLB
    rcases processDeparture_dict { m with event_queue := rest } i0 with hdict |
        ⟨ac2, hac2, hdict⟩
    · rw [hdict]
      exact hall id2
    · rw [hdict]
      by_cases hne : id2 = i0
      · subst hne
        rw [lookupAssigned_update_self]
        show ¬ (acDepart ac2).assigned_stand_type = some StandType.PLB
        have hthis : lookupAssigned m.aircraft_by_id id2 = ac2.assigned_stand_type := by
          unfold lookupAssigned
          rw [show dictLookup m.aircraft_by_id id2 = some ac2 from hac2]
        intro hh
        apply hall id2
        rw [hthis]
        exact hh
      · rw [lookupAssigned_update_ne _ _ hne]
        exact hall id2

theorem runLoop_no_plb {m : AirportModel}
    (hInv : Inv m) (htot : m.plb_total = 0)
    (hall : ∀ id2, ¬ lookupAssigned m.aircraft_by_id id2 = some StandType.PLB) :
    ∀ id2, ¬ lookupAssigned (runLoop m).aircraft_by_id id2 = some StandType.PLB := by
  have h := runLoop_ind
    (fun x => Inv x ∧ x.plb_total = 0 ∧
      ∀ id2, ¬ lookupAssigned x.aircraft_by_id id2 = some StandType.PLB)
    (by
      intro m2 hguard hP
      refine ⟨step_inv hP.1 hguard, ?_, ?_⟩
      · rw [step_plb_total]
        exact hP.2.1
      · rw [step_dict]
        have hdr := drain_ind
          (fun x => Inv x ∧ x.current_time ≤ x.simulation_duration ∧ x.plb_total = 0 ∧
            ∀ id2, ¬ lookupAssigned x.aircraft_by_id id2 = some StandType.PLB)
          (by
            intro m3 e rest hq ht hP3
            obtain ⟨hd1, hd2, hd3, -⟩ := dispatch_fixedFields { m3 with event_queue := rest } e
            refine ⟨dispatch_inv hP3.1 hq ht hP3.2.1, ?_, ?_, ?_⟩
            · rw [hd1, hd2]
              exact hP3.2.1
            · rw [hd3]
              exact hP3.2.2.1
            · exact dispatch_no_plb hP3.1 hq ht hP3.2.2.1 hP3.2.2.2)
          m2 ⟨hP.1, hguard, hP.2.1, hP.2.2⟩
        exact hdr.2.2.2)
    m ⟨hInv, htot, hall⟩
  exact h.2.2

/-! With enough PLB stands for the peak closed-interval demand, every
assignment is PLB. -/

theorem countP_timings_closed (m : AirportModel) (t : Int) :
    m.aircraft_by_id.countP
      (fun p => decide (p.2.arrival_time ≤ t ∧ t ≤ p.2.arrival_time + p.2.turnaround_time)) =
    (timings m).countP (fun tr => decide (tr.2.1 ≤ t ∧ t ≤ tr.2.1 + tr.2.2)) := by
  unfold timings
  rw [List.countP_map]
  rfl

theorem rowTimings_closed (rows : List InputRow) (t : Int) :
    (rowTimings rows).countP (fun tr => decide (tr.2.1 ≤ t ∧ t ≤ tr.2.1 + tr.2.2)) =
      closedIntervalCount rows t := by
  unfold rowTimings closedIntervalCount
  rw [List.countP_map]
  rfl

theorem dispatch_all_plb {m : AirportModel} {e : Event} {rest : List Event}
    {dur plbT : Int} {rows : List InputRow}
    (hInv : Inv m) (hq : m.event_queue = e :: rest) (ht : e.time = m.current_time)
    (hcd : m.current_time ≤ m.simulation_duration)
    (hdur : m.simulation_duration = dur)
    (htot : m.plb_total = plbT)
    (htim : timings m = rowTimings rows)
    (hcap : ∀ t, 0 ≤ t → t ≤ dur → (closedIntervalCount rows t : Int) ≤ plbT)
    (hall : ∀ id2 ac2, dictLookup m.aircraft_by_id id2 = some ac2 →
      ¬ ac2.assigned_stand_type = some StandType.REMOTE) :
    ∀ id2 ac2,
      dictLookup (dispatchEvent { m with event_queue := rest } e).aircraft_by_id id2 =
        some ac2 → ¬ ac2.assigned_stand_type = some StandType.REMOTE := by
  obtain ⟨ac, hac, hid, hcase⟩ := event_state hInv (by rw [hq]; exact List.mem_cons_self _ _)
  unfold dispatchEvent
  rcases hcase with ⟨hk, hst, htime⟩ | ⟨hk, hst, htime⟩
  · rw [hk]
    have hs := idInv_sched hid hst
    have harr : ac.arrival_time = m.current_time := by omega
    have havail : m.plb_available > 0 := by
      have hSnd : (e.acId :: m.parked_aircraft).Nodup :=
        List.nodup_cons.mpr ⟨hs.2.2.1, hInv.parkedNodup⟩
      have hbound := length_le_countP hSnd
        (fun p => decide (p.2.arrival_time ≤ m.current_time ∧
          m.current_time ≤ p.2.arrival_time + p.2.turnaround_time))
        (by
          intro x hx
          rcases List.mem_cons.mp hx with rfl | hx2
          · refine ⟨ac, hac, ?_⟩
            simp only [decide_eq_true_eq]
            have hdt := hid.2.1
            have hlt := hid.2.2.1
            omega
          · obtain ⟨ac2, hac2, hst2⟩ := hInv.parkedKnown x hx2
            have hid2 := hInv.perId x ac2 hac2
            have hp2 := idInv_parked hid2 hst2
            refine ⟨ac2, hac2, ?_⟩
            simp only [decide_eq_true_eq]
            have hdt := hid2.2.1
            have h1 := hp2.2.2.2.2.1
            have h2 := hp2.2.2.2.2.2
            omega)
      have hchain : m.aircraft_by_id.countP
          (fun p => decide (p.2.arrival_time ≤ m.current_time ∧
            m.current_time ≤ p.2.arrival_time + p.2.turnaround_time)) =
          closedIntervalCount rows m.current_time := by
        rw [countP_timings_closed, htim, rowTimings_closed]
      have hcapT := hcap m.current_time hInv.timeNonneg (by omega)
      have hplbc : plbCount m.aircraft_by_id m.parked_aircraft ≤
          m.parked_aircraft.length :=
        List.countP_le_length _
      have hpool := hInv.poolEq
      unfold plbParkedCount at hpool
      simp only [List.length_cons] at hbound
      rw [hchain] at hbound
      omega
    rcases processArrival_dict { m with event_queue := rest } e.acId with hdict |
        ⟨ac2, s, hac2, hdict, hiff⟩
    · intro id2 ac3 hl
      rw [hdict] at hl
      exact hall id2 ac3 hl
    · have hsP : s = StandType.PLB := hiff.mpr havail
      subst hsP
      intro id2 ac3 hl
      rw [hdict] at hl
      by_cases hne : id2 = e.acId
      · subst hne
        rw [dictLookup_update_self] at hl
        cases hl
        show ¬ (assignStand ac2 StandType.PLB).assigned_stand_type = some StandType.REMOTE
        intro hh
        have : some StandType.PLB = some StandType.REMOTE := hh
        cases this
      · rw [dictLookup_update_ne _ _ hne] at hl
        exact hall id2 ac3 hl
  · rw [hk]
    rcases processDeparture_dict { m with event_queue := rest } e.acId with hdict |
        ⟨ac2, hac2, hdict⟩
    · intro id2 ac3 hl
      rw [hdict] at hl
      exact hall id2 ac3 hl
    · intro id2 ac3 hl
      rw [hdict] at hl
      by_cases hne : id2 = e.acId
      · subst hne
        rw [dictLookup_update_self] at hl
        cases hl
        show ¬ (acDepart ac2).assigned_stand_type = some StandType.REMOTE
        exact hall e.acId ac2 hac2
      · rw [dictLookup_update_ne _ _ hne] at hl
        exact hall id2 ac3 hl

theorem runLoop_all_plb {m : AirportModel} {dur plbT : Int} {rows : List InputRow}
    (hInv : Inv m)
    (hdur : m.simulation_duration = dur)
    (htot : m.plb_total = plbT)
    (htim : timings m = rowTimings rows)
    (hcap : ∀ t, 0 ≤ t → t ≤ dur → (closedIntervalCount rows t : Int) ≤ plbT)
    (hall : ∀ id2 ac2, dictLookup m.aircraft_by_id id2 = some ac2 →
      ¬ ac2.assigned_stand_type = some StandType.REMOTE) :
    ∀ id2 ac2, dictLookup (runLoop m).aircraft_by_id id2 = some ac2 →
      ¬ ac2.assigned_stand_type = some StandType.REMOTE := by
  have h := runLoop_ind
    (fun x => Inv x ∧ x.simulation_duration = dur ∧ x.plb_total = plbT ∧
      timings x = rowTimings rows ∧
      ∀ id2 ac2, dictLookup x.aircraft_by_id id2 = some ac2 →
        ¬ ac2.assigned_stand_type = some StandType.REMOTE)
    (by
      intro m2 hguard hP
      refine ⟨step_inv hP.1 hguard, ?_, ?_, ?_, ?_⟩
      · rw [step_simulation_duration]
        exact hP.2.1
      · rw [step_plb_total]
        exact hP.2.2.1
      · rw [step_timings]
        exact hP.2.2.2.1
      · rw [step_dict]
        have hdr := drain_ind
          (fun x => Inv x ∧ x.current_time ≤ x.simulation_duration ∧
            x.simulation_duration = dur ∧ x.plb_total = plbT ∧
            timings x = rowTimings rows ∧
            ∀ id2 ac2, dictLookup x.aircraft_by_id id2 = some ac2 →
              ¬ ac2.assigned_stand_type = some StandType.REMOTE)
          (by
            intro m3 e rest hq ht hP3
            obtain ⟨hd1, hd2, hd3, -⟩ := dispatch_fixedFields { m3 with event_queue := rest } e
            refine ⟨dispatch_inv hP3.1 hq ht hP3.2.1, ?_, ?_, ?_, ?_, ?_⟩
            · rw [hd1, hd2]
              exact hP3.2.1
            · rw [hd2]
              exact hP3.2.2.1
            · rw [hd3]
              exact hP3.2.2.2.1
            · rw [dispatch_timings]
              exact hP3.2.2.2.2.1
            · exact dispatch_all_plb hP3.1 hq ht hP3.2.1 hP3.2.2.1 hP3.2.2.2.1
                hP3.2.2.2.2.1 hcap hP3.2.2.2.2.2)
          m2 ⟨hP.1, hguard, hP.2.1, hP.2.2.1, hP.2.2.2.1, hP.2.2.2.2⟩
        exact hdr.2.2.2.2.2)
    m ⟨hInv, hdur, htot, htim, hall⟩
  exact h.2.2.2.2

/-! Classification of aircraft states after the run finishes. -/

theorem countP_timings_dep (m : AirportModel) (dur : Int) :
    m.aircraft_by_id.countP
      (fun p => decide (p.2.arrival_time + p.2.turnaround_time ≤ dur)) =
    (timings m).countP (fun tr => decide (tr.2.1 + tr.2.2 ≤ dur)) := by
  unfold timings
  rw [List.countP_map]
  rfl

theorem rowTimings_dep (rows : List InputRow) (dur : Int) :
    (rowTimings rows).countP (fun tr => decide (tr.2.1 + tr.2.2 ≤ dur)) =
      rows.countP (fun r => decide (r.arrival_time + r.turnaround_time ≤ dur)) := by
  unfold rowTimings
  rw [List.countP_map]
  rfl

/-- After the horizon has passed, being departed is equivalent to having a
departure time within the horizon. -/
theorem final_departed_iff {m : AirportModel} (hInv : Inv m)
    (hpast : m.simulation_duration < m.current_time)
    {id : String} {ac : AircraftRec}
    (hac : dictLookup m.aircraft_by_id id = some ac) :
    ac.state = ACState.departed ↔
      ac.arrival_time + ac.turnaround_time ≤ m.simulation_duration := by
  have hid := hInv.perId id ac hac
  have hdt := hid.2.1
  cases hst : ac.state with
  | scheduled =>
    have hs := idInv_sched hid hst
    have harrq : (⟨ac.arrival_time, .ARRIVAL, id⟩ : Event) ∈ m.event_queue := by
      have : (⟨ac.arrival_time, .ARRIVAL, id⟩ : Event) ∈ eventsFor m.event_queue id := by
        rw [hs.2.1]
        exact List.mem_singleton.mpr rfl
      exact (mem_eventsFor.mp this).1
    have hfut := hInv.qFuture _ harrq
    simp only at hfut
    have hlt := hid.2.2.1
    constructor
    · intro hh
      cases hh
    · intro hh
      exfalso
      omega
  | parked =>
    have hs := idInv_parked hid hst
    have hcur := hs.2.2.2.2.2
    constructor
    · intro hh
      cases hh
    · intro hh
      exfalso
      omega
  | departed =>
    have hs := idInv_departed hid hst
    have hle := hs.2.2.2.2.2
    exact ⟨fun _ => by omega, fun _ => rfl⟩

/-- Closed form of one arrival when the aircraft exists. -/
theorem processArrival_eq {m : AirportModel} {id0 : String} {ac : AircraftRec}
    (hac : dictLookup m.aircraft_by_id id0 = some ac) :
    processArrival m id0 =
      { m with
        plb_available :=
          if m.plb_available > 0 then m.plb_available - 1 else m.plb_available,
        aircraft_by_id := dictUpdate m.aircraft_by_id id0
          (assignStand ac (if m.plb_available > 0 then StandType.PLB else StandType.REMOTE)),
        parked_aircraft := setAdd m.parked_aircraft id0,
        event_queue := insort ⟨ac.departure_time, .DEPARTURE, id0⟩ m.event_queue } := by
  unfold processArrival
  rw [hac]
  by_cases havail : m.plb_available > 0
  · dsimp only
    rw [if_pos havail, if_pos havail, if_pos havail]
    rfl
  · dsimp only
    rw [if_neg havail, if_neg havail, if_neg havail]
    rfl

/-- Closed form of one departure when the aircraft exists. -/
theorem processDeparture_eq {m : AirportModel} {id0 : String} {ac : AircraftRec}
    (hac : dictLookup m.aircraft_by_id id0 = some ac) :
    processDeparture m id0 =
      { m with
        plb_available :=
          if ac.assigned_stand_type = some StandType.PLB then m.plb_available + 1
          else m.plb_available,
        aircraft_by_id := dictUpdate m.aircraft_by_id id0 (acDepart ac),
        parked_aircraft := setRemove m.parked_aircraft id0,
        aircraft_results := m.aircraft_results ++ [mkResultRow (acDepart ac)] } := by
  unfold processDeparture
  rw [hac]

/-- The clock of a finished run is strictly past the horizon. -/
theorem runSim_past (rows : List InputRow) (plb dur : Int) :
    (runSimulation rows plb dur).simulation_duration <
      (runSimulation rows plb dur).current_time := by
  have h := runLoop_final (initModel rows plb dur)
  unfold runSimulation
  omega

/-- Total number of per-aircraft rows after a full run on well-formed
input: aircraft whose departure time fits inside the horizon. -/
theorem final_results_length (rows : List InputRow) (plb dur : Int)
    (hWF : WFInput rows) (hplb : 0 ≤ plb) :
    (runSimulation rows plb dur).aircraft_results.length =
      rows.countP (fun r => decide (r.arrival_time + r.turnaround_time ≤ dur)) := by
  have hInv := runSim_inv rows plb dur hWF hplb
  have hdur := runSim_duration rows plb dur
  have hpast := runSim_past rows plb dur
  rw [hInv.resultsLen]
  unfold departedCount depCount
  have hcongr : (runSimulation rows plb dur).aircraft_by_id.countP
      (fun p => decide (p.2.state = ACState.departed)) =
      (runSimulation rows plb dur).aircraft_by_id.countP
        (fun p => decide (p.2.arrival_time + p.2.turnaround_time ≤ dur)) := by
    apply countP_congr_list
    intro x hx
    have hl := mem_dictLookup hInv.keysNodup (show (x.1, x.2) ∈ _ from hx)
    have hiff := final_departed_iff hInv hpast hl
    rw [hdur] at hiff
    by_cases hcond : x.2.arrival_time + x.2.turnaround_time ≤ dur
    · simp [hcond, hiff.mpr hcond]
    · have : ¬ x.2.state = ACState.departed := fun hh => hcond (hiff.mp hh)
      simp [hcond, this]
  rw [hcongr, countP_timings_dep, runSim_timings rows plb dur hWF.1, rowTimings_dep]

/-- Each input aircraft appears in the per-aircraft output exactly when its
departure time fits inside the horizon, and then exactly once. -/
theorem final_results_perId (rows : List InputRow) (plb dur : Int)
    (hWF : WFInput rows) (hplb : 0 ≤ plb) {r : InputRow} (hr : r ∈ rows) :
    (resultsFor (runSimulation rows plb dur).aircraft_results r.aircraft_id).length =
      if r.arrival_time + r.turnaround_time ≤ dur then 1 else 0 := by
  have hInv := runSim_inv rows plb dur hWF hplb
  have hdur := runSim_duration rows plb dur
  have hpast := runSim_past rows plb dur
  obtain ⟨ac, hac, harr, hturn⟩ :=
    timings_lookup (runSim_timings rows plb dur hWF.1) hWF.1 hr
  have hid := hInv.perId _ _ hac
  have hiff := final_departed_iff hInv hpast hac
  rw [hdur, harr, hturn] at hiff
  by_cases hcond : r.arrival_time + r.turnaround_time ≤ dur
  · rw [if_pos hcond]
    have hst := hiff.mpr hcond
    have hs := idInv_departed hid hst
    rw [hs.2.2.2.1]
    rfl
  · rw [if_neg hcond]
    have hst : ¬ ac.state = ACState.departed := fun hh => hcond (hiff.mp hh)
    cases hstate : ac.state with
    | scheduled =>
      have hs := idInv_sched hid hstate
      rw [hs.2.2.2.1]
      rfl
    | parked =>
      have hs := idInv_parked hid hstate
      rw [hs.2.2.2.1]
      rfl
    | departed => exact absurd hstate hst



/-! ## The claims -/

/-- Reading the recorded stand class through a successful lookup. -/
theorem lookupAssigned_eq {d : List (String × AircraftRec)} {id : String}
    {ac : AircraftRec} (h : dictLookup d id = some ac) :
    lookupAssigned d id = ac.assigned_stand_type := by
  unfold lookupAssigned
  rw [h]

/-- Right after construction every created aircraft is unassigned. -/
theorem initModel_assigned_none (rows : List InputRow) (plb dur : Int)
    (hnd : (rows.map (fun r => r.aircraft_id)).Nodup) :
    ∀ id ac, dictLookup (initModel rows plb dur).aircraft_by_id id = some ac →
      ac.assigned_stand_type = none := by
  intro id ac hac
  have h8 := (initModel_spec rows plb dur hnd).2.2.2.2.2.2.2.1
  have hmem := dictLookup_mem hac
  rw [h8] at hmem
  obtain ⟨r, hr, heq⟩ := List.mem_map.mp hmem
  have h2 : (entryOf r).2 = ac := congrArg Prod.snd heq
  rw [← h2]
  rfl

/-- C1: Processing an ARRIVAL for a known aircraft is greedy: with a free
PLB stand the aircraft is assigned PLB and the available count drops by one,
otherwise it is assigned REMOTE and the count is untouched; either way the
aircraft becomes parked, joins the parked set, and its DEPARTURE event is
scheduled at the departure time fixed at construction as arrival plus
turnaround; and a recorded stand class survives the rest of the run
unchanged, so a REMOTE aircraft is never promoted to PLB. -/
theorem claim_C1 :
    (∀ id : String, ∀ arr turn : Int,
      (mkAircraft id arr turn).departure_time = arr + turn ∧
      (mkAircraft id arr turn).state = ACState.scheduled ∧
      (mkAircraft id arr turn).assigned_stand_type = none) ∧
    (∀ m : AirportModel, ∀ id : String, ∀ ac : AircraftRec,
      dictLookup m.aircraft_by_id id = some ac →
      (m.plb_available > 0 →
        (processArrival m id).plb_available = m.plb_available - 1 ∧
        assignedOf (processArrival m id) id = some StandType.PLB) ∧
      (¬ m.plb_available > 0 →
        (processArrival m id).plb_available = m.plb_available ∧
        assignedOf (processArrival m id) id = some StandType.REMOTE) ∧
      stateOf (processArrival m id) id = some ACState.parked ∧
      id ∈ (processArrival m id).parked_aircraft ∧
      (⟨ac.departure_time, EventKind.DEPARTURE, id⟩ : Event) ∈
        (processArrival m id).event_queue) ∧
    (∀ m : AirportModel, ∀ id : String, ∀ v : StandType, Inv m →
      assignedOf m id = some v → assignedOf (runLoop m) id = some v) := by
  refine ⟨fun id arr turn => ⟨rfl, rfl, rfl⟩, ?_, ?_⟩
  · intro m id ac hac
    rw [processArrival_eq hac]
    refine ⟨?_, ?_, ?_, ?_, ?_⟩
    · intro h
      refine ⟨?_, ?_⟩
      · show (if m.plb_available > 0 then m.plb_available - 1 else m.plb_available) =
          m.plb_available - 1
        rw [if_pos h]
      · show lookupAssigned (dictUpdate m.aircraft_by_id id
          (assignStand ac (if m.plb_available > 0 then StandType.PLB else StandType.REMOTE)))
          id = some StandType.PLB
        rw [lookupAssigned_update_self]
        show some (if m.plb_available > 0 then StandType.PLB else StandType.REMOTE) =
          some StandType.PLB
        rw [if_pos h]
    · intro h
      refine ⟨?_, ?_⟩
      · show (if m.plb_available > 0 then m.plb_available - 1 else m.plb_available) =
          m.plb_available
        rw [if_neg h]
      · show lookupAssigned (dictUpdate m.aircraft_by_id id
          (assignStand ac (if m.plb_available > 0 then StandType.PLB else StandType.REMOTE)))
          id = some StandType.REMOTE
        rw [lookupAssigned_update_self]
        show some (if m.plb_available > 0 then StandType.PLB else StandType.REMOTE) =
          some StandType.REMOTE
        rw [if_neg h]
    · simp only [stateOf, dictLookup_update_self, assignStand]
    · show id ∈ setAdd m.parked_aircraft id
      exact mem_setAdd.mpr (Or.inl rfl)
    · show (⟨ac.departure_time, EventKind.DEPARTURE, id⟩ : Event) ∈
        insort ⟨ac.departure_time, EventKind.DEPARTURE, id⟩ m.event_queue
      exact mem_insort.mpr (Or.inl rfl)
  · intro m id v hInv hv
    exact runLoop_assigned_stable hInv hv

theorem claim_C1_witness :
    dictLookup (initModel [(⟨"W1", 0, 5⟩ : InputRow)] 1 100).aircraft_by_id "W1" =
      some (mkAircraft "W1" 0 5) ∧
    stateOf (processArrival (initModel [(⟨"W1", 0, 5⟩ : InputRow)] 1 100) "W1") "W1" =
      some ACState.parked ∧
    WFInput [(⟨"W1", 0, 5⟩ : InputRow)] ∧
    assignedOf (step (initModel [(⟨"W1", 0, 5⟩ : InputRow)] 1 100)) "W1" =
      some StandType.PLB ∧
    assignedOf (runLoop (step (initModel [(⟨"W1", 0, 5⟩ : InputRow)] 1 100))) "W1" =
      some StandType.PLB :=
  ⟨by decide,
   (claim_C1.2.1 (initModel [(⟨"W1", 0, 5⟩ : InputRow)] 1 100) "W1" (mkAircraft "W1" 0 5)
     (by decide)).2.2.1,
   by decide, by decide,
   claim_C1.2.2 (step (initModel [(⟨"W1", 0, 5⟩ : InputRow)] 1 100)) "W1" StandType.PLB
     (step_inv (initModel_inv [(⟨"W1", 0, 5⟩ : InputRow)] 1 100 (by decide) (by decide))
       (by decide))
     (by decide)⟩

/-- C2: The PLB pool bookkeeping: scheduling an event never touches the
available count; a processed arrival lowers it by one exactly in the branch
that grants a PLB stand and leaves it untouched in the REMOTE branch, and
the PLB branch is taken precisely when the count is positive; a processed
departure raises it by one exactly when the departing aircraft held a PLB
stand; and on well-formed input every per-minute snapshot satisfies
0 ≤ plb_occupied ≤ plb_total, 0 ≤ plb_available ≤ plb_total and
plb_occupied + plb_available = plb_total. -/
theorem claim_C2 :
    (∀ m : AirportModel, ∀ t : Int, ∀ k : EventKind, ∀ i : String,
      (scheduleEvent m t k i).plb_available = m.plb_available) ∧
    (∀ m : AirportModel, ∀ id : String, ∀ ac : AircraftRec,
      dictLookup m.aircraft_by_id id = some ac →
      (processArrival m id).plb_available =
        (if m.plb_available > 0 then m.plb_available - 1 else m.plb_available)) ∧
    (∀ m : AirportModel, ∀ id : String, ∀ ac : AircraftRec,
      dictLookup m.aircraft_by_id id = some ac →
      (m.plb_available > 0 ↔ assignedOf (processArrival m id) id = some StandType.PLB)) ∧
    (∀ m : AirportModel, ∀ id : String, ∀ ac : AircraftRec,
      dictLookup m.aircraft_by_id id = some ac →
      (processDeparture m id).plb_available =
        (if ac.assigned_stand_type = some StandType.PLB then m.plb_available + 1
         else m.plb_available)) ∧
    (∀ rows : List InputRow, ∀ plb dur : Int, WFInput rows → 0 ≤ plb →
      ∀ row ∈ (runSimulation rows plb dur).minute_results,
        0 ≤ row.plb_occupied ∧ row.plb_occupied ≤ plb ∧
        0 ≤ row.plb_available ∧ row.plb_available ≤ plb ∧
        row.plb_occupied + row.plb_available = plb) := by
  refine ⟨fun m t k i => rfl, ?_, ?_, ?_, ?_⟩
  · intro m id ac hac
    rw [processArrival_eq hac]
  · intro m id ac hac
    rw [processArrival_eq hac]
    show _ ↔ lookupAssigned (dictUpdate m.aircraft_by_id id
      (assignStand ac (if m.plb_available > 0 then StandType.PLB else StandType.REMOTE)))
      id = some StandType.PLB
    rw [lookupAssigned_update_self]
    by_cases h : m.plb_available > 0
    · simp [assignStand, h]
    · simp [assignStand, h]
  · intro m id ac hac
    rw [processDeparture_eq hac]
  · intro rows plb dur hWF hplb
    have hbase : ∀ row ∈ (initModel rows plb dur).minute_results,
        0 ≤ row.plb_occupied ∧ row.plb_occupied ≤ plb ∧
        0 ≤ row.plb_available ∧ row.plb_available ≤ plb ∧
        row.plb_occupied + row.plb_available = plb := by
      rw [(initModel_fixed rows plb dur).2.2.2.2.2.2]
      intro row hrow
      cases hrow
    exact runLoop_minutes_prop (timings (initModel rows plb dur)) plb
      (fun row => 0 ≤ row.plb_occupied ∧ row.plb_occupied ≤ plb ∧
        0 ≤ row.plb_available ∧ row.plb_available ≤ plb ∧
        row.plb_occupied + row.plb_available = plb)
      (by
        intro m2 hInv2 htim2 htot2 hcd2
        have hInv1 := drain_inv hInv2 hcd2
        have htot1 : (processEventsAtCurrentTime m2).plb_total = plb := by
          rw [(processEvents_fixedFields m2).2.2.1]
          exact htot2
        have hpool := hInv1.poolEq
        have hnn := hInv1.poolNonneg
        have hcnt : (0 : Int) ≤ (plbParkedCount (processEventsAtCurrentTime m2) : Int) :=
          Int.natCast_nonneg _
        show 0 ≤ (processEventsAtCurrentTime m2).plb_total -
            (processEventsAtCurrentTime m2).plb_available ∧
          (processEventsAtCurrentTime m2).plb_total -
            (processEventsAtCurrentTime m2).plb_available ≤ plb ∧
          0 ≤ (processEventsAtCurrentTime m2).plb_available ∧
          (processEventsAtCurrentTime m2).plb_available ≤ plb ∧
          (processEventsAtCurrentTime m2).plb_total -
              (processEventsAtCurrentTime m2).plb_available +
            (processEventsAtCurrentTime m2).plb_available = plb
        omega)
      (initModel rows plb dur) (initModel_inv rows plb dur hWF hplb) rfl
      (initModel_fixed rows plb dur).1 hbase

theorem claim_C2_witness :
    WFInput [(⟨"W2", 0, 5⟩ : InputRow)] ∧ (0 : Int) ≤ 1 ∧
    ∀ row ∈ (runSimulation [(⟨"W2", 0, 5⟩ : InputRow)] 1 3).minute_results,
      0 ≤ row.plb_occupied ∧ row.plb_occupied ≤ 1 ∧
      0 ≤ row.plb_available ∧ row.plb_available ≤ 1 ∧
      row.plb_occupied + row.plb_available = 1 :=
  ⟨by decide, by decide,
    claim_C2.2.2.2.2 [(⟨"W2", 0, 5⟩ : InputRow)] 1 3 (by decide) (by decide)⟩

/-- C3: On well-formed input the total_parked field of every per-minute
snapshot counts exactly the input aircraft whose half-open occupancy
interval arrival ≤ minute < arrival + turnaround contains that minute, and
every minute 0..horizon is covered by a snapshot row. -/
theorem claim_C3 (rows : List InputRow) (plb dur : Int)
    (hWF : WFInput rows) (hplb : 0 ≤ plb) :
    (∀ row ∈ (runSimulation rows plb dur).minute_results,
      row.total_parked = inIntervalCount rows row.current_time) ∧
    (∀ t : Int, 0 ≤ t → t ≤ dur →
      ∃ row ∈ (runSimulation rows plb dur).minute_results, row.current_time = t) := by
  refine ⟨?_, ?_⟩
  · have hbase : ∀ row ∈ (initModel rows plb dur).minute_results,
        row.total_parked = inIntervalCount rows row.current_time := by
      rw [(initModel_fixed rows plb dur).2.2.2.2.2.2]
      intro row hrow
      cases hrow
    exact runLoop_minutes_prop (rowTimings rows) plb
      (fun row => row.total_parked = inIntervalCount rows row.current_time)
      (by
        intro m2 hInv2 htim2 htot2 hcd2
        have hInv1 := drain_inv hInv2 hcd2
        have hpost := drain_strict hInv2 hcd2
        have h1 := parked_length_eq hInv1 hpost
        have h3 : timings (processEventsAtCurrentTime m2) = rowTimings rows := by
          rw [drain_timings]
          exact htim2
        show (processEventsAtCurrentTime m2).parked_aircraft.length =
          inIntervalCount rows (processEventsAtCurrentTime m2).current_time
        rw [h1, countP_timings_interval, h3, rowTimings_interval])
      (initModel rows plb dur) (initModel_inv rows plb dur hWF hplb)
      (initModel_timings rows plb dur hWF.1) (initModel_fixed rows plb dur).1 hbase
  · intro t ht htd
    have hmap := runLoop_minutes_times (initModel rows plb dur)
    have hfix := initModel_fixed rows plb dur
    rw [hfix.2.2.2.2.2.2, hfix.2.2.1, hfix.2.2.2.1, List.map_nil, List.nil_append] at hmap
    have htmem : t ∈ intRange 0 (dur + 1 - 0).toNat := by
      rw [mem_intRange]
      omega
    rw [← hmap] at htmem
    obtain ⟨row, hrow, hrt⟩ := List.mem_map.mp htmem
    exact ⟨row, hrow, hrt⟩

theorem claim_C3_witness :
    WFInput [(⟨"W3", 0, 2⟩ : InputRow)] ∧ (0 : Int) ≤ 1 ∧
    ∀ row ∈ (runSimulation [(⟨"W3", 0, 2⟩ : InputRow)] 1 3).minute_results,
      row.total_parked = inIntervalCount [(⟨"W3", 0, 2⟩ : InputRow)] row.current_time :=
  ⟨by decide, by decide,
    (claim_C3 [(⟨"W3", 0, 2⟩ : InputRow)] 1 3 (by decide) (by decide)).1⟩

/-- C4, counterexample to part (2) as stated: with one PLB stand and never
more than one simultaneously parked aircraft, the second aircraft is still
assigned REMOTE, because its arrival at minute 10 is dispatched before the
first aircraft departure at the same minute frees the stand. -/
theorem claim_C4_counterexample :
    ((runSimulation [(⟨"A1", 0, 10⟩ : InputRow), ⟨"A2", 10, 10⟩] 1 30).minute_results.all
      (fun row => decide (row.total_parked ≤ 1))) = true ∧
    stateOf (runSimulation [(⟨"A1", 0, 10⟩ : InputRow), ⟨"A2", 10, 10⟩] 1 30) "A2" =
      some ACState.departed ∧
    assignedOf (runSimulation [(⟨"A1", 0, 10⟩ : InputRow), ⟨"A2", 10, 10⟩] 1 30) "A2" =
      some StandType.REMOTE := by decide

/-- C4 (amended): (1) with zero PLB stands every aircraft whose arrival has
been processed holds a REMOTE stand; (2) if the PLB stand count covers the
peak demand counted with the closed occupancy interval
arrival ≤ t ≤ arrival + turnaround, then every processed aircraft holds a
PLB stand.  The closed interval is the correct demand measure because
arrivals at a minute are dispatched before departures at the same minute,
so a stand freed at minute t is not yet available to an arrival at t; the
original reading of part (2), with demand counted by simultaneously parked
aircraft, is refuted by the recorded counterexample. -/
theorem claim_C4 :
    (∀ rows : List InputRow, ∀ dur : Int, WFInput rows →
      ∀ id : String, ∀ ac : AircraftRec,
        dictLookup (runSimulation rows 0 dur).aircraft_by_id id = some ac →
        ¬ ac.state = ACState.scheduled →
        ac.assigned_stand_type = some StandType.REMOTE) ∧
    (∀ rows : List InputRow, ∀ plb dur : Int, WFInput rows → 0 ≤ plb →
      (∀ t : Int, 0 ≤ t → t ≤ dur → (closedIntervalCount rows t : Int) ≤ plb) →
      ∀ id : String, ∀ ac : AircraftRec,
        dictLookup (runSimulation rows plb dur).aircraft_by_id id = some ac →
        ¬ ac.state = ACState.scheduled →
        ac.assigned_stand_type = some StandType.PLB) := by
  refine ⟨?_, ?_⟩
  · intro rows dur hWF id ac hac hst
    have hInv0 := initModel_inv rows 0 dur hWF le_rfl
    have hfix := initModel_fixed rows 0 dur
    have hall0 : ∀ id2, ¬ lookupAssigned (initModel rows 0 dur).aircraft_by_id id2 =
        some StandType.PLB := by
      intro id2
      cases hlk : dictLookup (initModel rows 0 dur).aircraft_by_id id2 with
      | none =>
        intro hcon
        rw [lookupAssigned, hlk] at hcon
        cases hcon
      | some ac2 =>
        intro hcon
        rw [lookupAssigned_eq hlk,
          initModel_assigned_none rows 0 dur hWF.1 id2 ac2 hlk] at hcon
        cases hcon
    have hnoplb := runLoop_no_plb hInv0 hfix.1 hall0
    have hInvF : Inv (runSimulation rows 0 dur) := runSim_inv rows 0 dur hWF le_rfl
    have hlk : lookupAssigned (runSimulation rows 0 dur).aircraft_by_id id =
        ac.assigned_stand_type := lookupAssigned_eq hac
    cases hstate : ac.state with
    | scheduled => exact absurd hstate hst
    | parked =>
      obtain ⟨s, hs⟩ := (idInv_parked (hInvF.perId id ac hac) hstate).1
      cases s with
      | PLB =>
        refine absurd ?_ (hnoplb id)
        show lookupAssigned (runLoop (initModel rows 0 dur)).aircraft_by_id id =
          some StandType.PLB
        rw [show lookupAssigned (runLoop (initModel rows 0 dur)).aircraft_by_id id =
          ac.assigned_stand_type from hlk, hs]
      | REMOTE => exact hs
    | departed =>
      obtain ⟨s, hs⟩ := (idInv_departed (hInvF.perId id ac hac) hstate).1
      cases s with
      | PLB =>
        refine absurd ?_ (hnoplb id)
        show lookupAssigned (runLoop (initModel rows 0 dur)).aircraft_by_id id =
          some StandType.PLB
        rw [show lookupAssigned (runLoop (initModel rows 0 dur)).aircraft_by_id id =
          ac.assigned_stand_type from hlk, hs]
      | REMOTE => exact hs
  · intro rows plb dur hWF hplb hcap id ac hac hst
    have hInv0 := initModel_inv rows plb dur hWF hplb
    have hfix := initModel_fixed rows plb dur
    have hall0 : ∀ id2 ac2,
        dictLookup (initModel rows plb dur).aircraft_by_id id2 = some ac2 →
        ¬ ac2.assigned_stand_type = some StandType.REMOTE := by
      intro id2 ac2 hlk hcon
      rw [initModel_assigned_none rows plb dur hWF.1 id2 ac2 hlk] at hcon
      cases hcon
    have hnorem := runLoop_all_plb hInv0 hfix.2.2.1 hfix.1
      (initModel_timings rows plb dur hWF.1) hcap hall0
    have hInvF : Inv (runSimulation rows plb dur) := runSim_inv rows plb dur hWF hplb
    cases hstate : ac.state with
    | scheduled => exact absurd hstate hst
    | parked =>
      obtain ⟨s, hs⟩ := (idInv_parked (hInvF.perId id ac hac) hstate).1
      cases s with
      | PLB => exact hs
      | REMOTE => exact absurd hs (hnorem id ac hac)
    | departed =>
      obtain ⟨s, hs⟩ := (idInv_departed (hInvF.perId id ac hac) hstate).1
      cases s with
      | PLB => exact hs
      | REMOTE => exact absurd hs (hnorem id ac hac)

theorem claim_C4_witness :
    WFInput [(⟨"V1", 0, 5⟩ : InputRow)] ∧
    dictLookup (runSimulation [(⟨"V1", 0, 5⟩ : InputRow)] 0 10).aircraft_by_id "V1" =
      some (⟨"V1", 0, 5, 5, some StandType.REMOTE, ACState.departed⟩ : AircraftRec) ∧
    (⟨"V1", 0, 5, 5, some StandType.REMOTE, ACState.departed⟩ :
      AircraftRec).assigned_stand_type = some StandType.REMOTE :=
  ⟨by decide, by decide,
    claim_C4.1 [(⟨"V1", 0, 5⟩ : InputRow)] 10 (by decide) "V1"
      (⟨"V1", 0, 5, 5, some StandType.REMOTE, ACState.departed⟩ : AircraftRec)
      (by decide) (by decide)⟩

/-- C5: On the concrete three-aircraft scenario with one PLB stand and
horizon 100 — A1 and A2 both arriving at 0 with turnaround 10, A3 arriving
at 20 with turnaround 10 — the run assigns A1 the PLB stand (processed
first at time 0 by the lexicographic tie-break), A2 REMOTE and A3 PLB, the
snapshots at minutes 0, 10 and 20 read exactly as specified, and there are
101 snapshot rows. -/
theorem claim_C5 :
    assignedOf (runSimulation
      [(⟨"A1", 0, 10⟩ : InputRow), ⟨"A2", 0, 10⟩, ⟨"A3", 20, 10⟩] 1 100) "A1" =
      some StandType.PLB ∧
    assignedOf (runSimulation
      [(⟨"A1", 0, 10⟩ : InputRow), ⟨"A2", 0, 10⟩, ⟨"A3", 20, 10⟩] 1 100) "A2" =
      some StandType.REMOTE ∧
    assignedOf (runSimulation
      [(⟨"A1", 0, 10⟩ : InputRow), ⟨"A2", 0, 10⟩, ⟨"A3", 20, 10⟩] 1 100) "A3" =
      some StandType.PLB ∧
    (runSimulation
      [(⟨"A1", 0, 10⟩ : InputRow), ⟨"A2", 0, 10⟩, ⟨"A3", 20, 10⟩] 1 100).minute_results.get?
      0 = some ⟨0, 1, 2, 1, 0⟩ ∧
    (runSimulation
      [(⟨"A1", 0, 10⟩ : InputRow), ⟨"A2", 0, 10⟩, ⟨"A3", 20, 10⟩] 1 100).minute_results.get?
      10 = some ⟨10, 0, 0, 0, 1⟩ ∧
    (runSimulation
      [(⟨"A1", 0, 10⟩ : InputRow), ⟨"A2", 0, 10⟩, ⟨"A3", 20, 10⟩] 1 100).minute_results.get?
      20 = some ⟨20, 1, 1, 0, 0⟩ ∧
    (runSimulation
      [(⟨"A1", 0, 10⟩ : InputRow), ⟨"A2", 0, 10⟩, ⟨"A3", 20, 10⟩] 1 100).minute_results.length
      = 101 := by decide

/-- C6: For any horizon H ≥ 0 the driver loop runs exactly H+1 minutes: the
snapshot times are exactly 0..H in strictly increasing order, one row per
minute, each snapshot is appended after the events due at that minute were
drained, and the loop stops with the clock strictly past the horizon. -/
theorem claim_C6 :
    (∀ rows : List InputRow, ∀ plb dur : Int, 0 ≤ dur →
      (runSimulation rows plb dur).minute_results.map (fun row => row.current_time) =
        intRange 0 (dur + 1).toNat ∧
      ((runSimulation rows plb dur).minute_results.length : Int) = dur + 1 ∧
      List.Chain' (fun a b : MinuteRow => a.current_time < b.current_time)
        (runSimulation rows plb dur).minute_results ∧
      (runSimulation rows plb dur).simulation_duration <
        (runSimulation rows plb dur).current_time) ∧
    (∀ m : AirportModel, (step m).minute_results =
      m.minute_results ++ [mkSnapshot (processEventsAtCurrentTime m)]) := by
  refine ⟨?_, step_minutes⟩
  intro rows plb dur hdur
  have hmap := runLoop_minutes_times (initModel rows plb dur)
  have hfix := initModel_fixed rows plb dur
  rw [hfix.2.2.2.2.2.2, hfix.2.2.1, hfix.2.2.2.1, List.map_nil, List.nil_append] at hmap
  have hrange : (dur + 1 - 0).toNat = (dur + 1).toNat := by omega
  rw [hrange] at hmap
  refine ⟨hmap, ?_, ?_, runSim_past rows plb dur⟩
  · have hlen : (runSimulation rows plb dur).minute_results.length = (dur + 1).toNat := by
      have h := congrArg List.length hmap
      rw [List.length_map, intRange_length] at h
      exact h
    omega
  · have hc := intRange_chain 0 ((dur + 1).toNat)
    rw [← hmap] at hc
    exact (List.chain'_map (fun row : MinuteRow => row.current_time)).mp hc

theorem claim_C6_witness :
    (0 : Int) ≤ 5 ∧
    (runSimulation [] 0 5).minute_results.map (fun row : MinuteRow => row.current_time) =
      intRange 0 ((5 : Int) + 1).toNat :=
  ⟨by decide, (claim_C6.1 [] 0 5 (by decide)).1⟩

/-- C7, counterexample: one input aircraft whose departure falls past the
horizon produces zero per-aircraft rows, so the per-aircraft output does
not list one row per input aircraft. -/
theorem claim_C7_counterexample :
    ([(⟨"A1", 0, 10⟩ : InputRow)]).length = 1 ∧
    (runSimulation [(⟨"A1", 0, 10⟩ : InputRow)] 1 5).aircraft_results.length = 0 := by
  decide

/-- C7 (amended): the per-aircraft output holds one row per input aircraft
whose departure time lies within the horizon, and only those: each such
aircraft appears exactly once, while an aircraft departing past the horizon
never appears.  The original claim, one row per input aircraft
unconditionally, is refuted by the recorded counterexample. -/
theorem claim_C7 (rows : List InputRow) (plb dur : Int)
    (hWF : WFInput rows) (hplb : 0 ≤ plb) :
    (runSimulation rows plb dur).aircraft_results.length =
      rows.countP (fun r => decide (r.arrival_time + r.turnaround_time ≤ dur)) ∧
    ∀ r ∈ rows,
      (resultsFor (runSimulation rows plb dur).aircraft_results r.aircraft_id).length =
        if r.arrival_time + r.turnaround_time ≤ dur then 1 else 0 :=
  ⟨final_results_length rows plb dur hWF hplb,
    fun r hr => final_results_perId rows plb dur hWF hplb hr⟩

theorem claim_C7_witness :
    WFInput [(⟨"W7", 0, 3⟩ : InputRow)] ∧ (0 : Int) ≤ 1 ∧
    (runSimulation [(⟨"W7", 0, 3⟩ : InputRow)] 1 10).aircraft_results.length =
      ([(⟨"W7", 0, 3⟩ : InputRow)]).countP
        (fun r => decide (r.arrival_time + r.turnaround_time ≤ 10)) :=
  ⟨by decide, by decide,
    (claim_C7 [(⟨"W7", 0, 3⟩ : InputRow)] 1 10 (by decide) (by decide)).1⟩

/-- C8: An aircraft arriving within the horizon but departing past it is
still processed: at the end of the run it is recorded as parked with a
stand class assigned, its DEPARTURE event is still pending in the queue,
never drained, and it contributes no per-aircraft output row. -/
theorem claim_C8 (rows : List InputRow) (plb dur : Int)
    (hWF : WFInput rows) (hplb : 0 ≤ plb)
    {r : InputRow} (hr : r ∈ rows)
    (harr : r.arrival_time ≤ dur) (hdep : dur < r.arrival_time + r.turnaround_time) :
    ∃ ac, dictLookup (runSimulation rows plb dur).aircraft_by_id r.aircraft_id = some ac ∧
      ac.state = ACState.parked ∧
      (∃ s, ac.assigned_stand_type = some s) ∧
      (⟨ac.departure_time, EventKind.DEPARTURE, r.aircraft_id⟩ : Event) ∈
        (runSimulation rows plb dur).event_queue ∧
      resultsFor (runSimulation rows plb dur).aircraft_results r.aircraft_id = [] := by
  have hInv := runSim_inv rows plb dur hWF hplb
  have hdur := runSim_duration rows plb dur
  have hpast := runSim_past rows plb dur
  rw [hdur] at hpast
  obtain ⟨ac, hac, hacarr, hacturn⟩ :=
    timings_lookup (runSim_timings rows plb dur hWF.1) hWF.1 hr
  have hid := hInv.perId _ _ hac
  have hiff := final_departed_iff hInv (by rw [hdur]; exact hpast) hac
  rw [hdur, hacarr, hacturn] at hiff
  have hnotdep : ¬ ac.state = ACState.departed := by
    intro hh
    have := hiff.mp hh
    omega
  cases hstate : ac.state with
  | scheduled =>
    exfalso
    have hs := idInv_sched hid hstate
    have harrq : (⟨ac.arrival_time, EventKind.ARRIVAL, r.aircraft_id⟩ : Event) ∈
        (runSimulation rows plb dur).event_queue := by
      have hm : (⟨ac.arrival_time, EventKind.ARRIVAL, r.aircraft_id⟩ : Event) ∈
          eventsFor (runSimulation rows plb dur).event_queue r.aircraft_id := by
        rw [hs.2.1]
        exact List.mem_singleton.mpr rfl
      exact (mem_eventsFor.mp hm).1
    have hfut := hInv.qFuture _ harrq
    simp only at hfut
    rw [hacarr] at hfut
    omega
  | parked =>
    have hs := idInv_parked hid hstate
    refine ⟨ac, hac, hstate, hs.1, ?_, hs.2.2.2.1⟩
    have hm : (⟨ac.departure_time, EventKind.DEPARTURE, r.aircraft_id⟩ : Event) ∈
        eventsFor (runSimulation rows plb dur).event_queue r.aircraft_id := by
      rw [hs.2.1]
      exact List.mem_singleton.mpr rfl
    exact (mem_eventsFor.mp hm).1
  | departed => exact absurd hstate hnotdep

theorem claim_C8_witness :
    WFInput [(⟨"B1", 0, 10⟩ : InputRow)] ∧ (0 : Int) ≤ 1 ∧
    (⟨"B1", 0, 10⟩ : InputRow).arrival_time ≤ 5 ∧
    (5 : Int) < (⟨"B1", 0, 10⟩ : InputRow).arrival_time +
      (⟨"B1", 0, 10⟩ : InputRow).turnaround_time ∧
    ∃ ac, dictLookup (runSimulation [(⟨"B1", 0, 10⟩ : InputRow)] 1 5).aircraft_by_id
        (⟨"B1", 0, 10⟩ : InputRow).aircraft_id = some ac ∧
      ac.state = ACState.parked ∧
      (∃ s, ac.assigned_stand_type = some s) ∧
      (⟨ac.departure_time, EventKind.DEPARTURE,
        (⟨"B1", 0, 10⟩ : InputRow).aircraft_id⟩ : Event) ∈
        (runSimulation [(⟨"B1", 0, 10⟩ : InputRow)] 1 5).event_queue ∧
      resultsFor (runSimulation [(⟨"B1", 0, 10⟩ : InputRow)] 1 5).aircraft_results
        (⟨"B1", 0, 10⟩ : InputRow).aircraft_id = [] :=
  ⟨by decide, by decide, by decide, by decide,
    claim_C8 [(⟨"B1", 0, 10⟩ : InputRow)] 1 5 (by decide) (by decide)
      (List.mem_singleton.mpr rfl) (by decide) (by decide)⟩

/-- C9: Construction performs no input validation, contrary to the
specified eager rejection of malformed tables.  On a table carrying a
duplicate identifier the constructor succeeds: the later row silently
overwrites the earlier one in the identifier index while both ARRIVAL
events remain scheduled; a negative arrival time is likewise accepted
without complaint. -/
theorem claim_C9 :
    (initModel [(⟨"A", 0, 10⟩ : InputRow), ⟨"A", 5, 20⟩] 35 360).aircraft_by_id.length
      = 1 ∧
    dictLookup (initModel [(⟨"A", 0, 10⟩ : InputRow), ⟨"A", 5, 20⟩] 35 360).aircraft_by_id
      "A" = some (mkAircraft "A" 5 20) ∧
    (initModel [(⟨"A", 0, 10⟩ : InputRow), ⟨"A", 5, 20⟩] 35 360).event_queue.length = 2 ∧
    (initModel [(⟨"B", -5, 3⟩ : InputRow)] 1 10).aircraft_by_id.length = 1 ∧
    dictLookup (initModel [(⟨"B", -5, 3⟩ : InputRow)] 1 10).aircraft_by_id "B" =
      some (mkAircraft "B" (-5) 3) := by decide

/-- C10: In any state satisfying the simulation invariant the pending queue
never places an ARRIVAL after a DEPARTURE of the same minute: every event
listed after a DEPARTURE and sharing its time is itself a DEPARTURE.  This
is forced by the heap order on the tuple of time, kind string and
identifier, where the string ARRIVAL sorts strictly before DEPARTURE; the
drain pops the queue front first, so within one minute all arrivals are
dispatched before any departure, and a PLB stand freed by a departure at
minute t is never available to an arrival at that same minute t, as the
two-aircraft run recorded in the last conjunct shows concretely. -/
theorem claim_C10 :
    (∀ m : AirportModel, Inv m →
      ∀ l1 : List Event, ∀ x : Event, ∀ l2 : List Event,
        m.event_queue = l1 ++ x :: l2 → x.kind = EventKind.DEPARTURE →
        ∀ y ∈ l2, y.time = x.time → y.kind = EventKind.DEPARTURE) ∧
    (kindStr EventKind.ARRIVAL).data < (kindStr EventKind.DEPARTURE).data ∧
    assignedOf (runSimulation [(⟨"A1", 0, 10⟩ : InputRow), ⟨"A2", 10, 10⟩] 1 30) "A2" =
      some StandType.REMOTE := by
  refine ⟨?_, by decide, by decide⟩
  intro m hInv l1 x l2 hq hx y hy hty
  have hsort := hInv.qSorted
  rw [hq] at hsort
  have hpair := (List.pairwise_append.mp hsort).2.1
  have hle : evLe x y := (List.pairwise_cons.mp hpair).1 y hy
  cases hyk : y.kind with
  | DEPARTURE => rfl
  | ARRIVAL =>
    exfalso
    apply hle
    exact Or.inr ⟨hty, Or.inl (by rw [hyk, hx]; decide)⟩

theorem claim_C10_witness :
    (step (step (step (step (step (step
      (initModel [(⟨"A", 0, 10⟩ : InputRow), ⟨"B", 5, 5⟩] 1 20))))))).event_queue =
      [] ++ (⟨10, EventKind.DEPARTURE, "A"⟩ : Event) ::
        [(⟨10, EventKind.DEPARTURE, "B"⟩ : Event)] ∧
    (⟨10, EventKind.DEPARTURE, "B"⟩ : Event).time =
      (⟨10, EventKind.DEPARTURE, "A"⟩ : Event).time ∧
    (⟨10, EventKind.DEPARTURE, "B"⟩ : Event).kind = EventKind.DEPARTURE :=
  ⟨by decide, by decide,
    claim_C10.1
      (step (step (step (step (step (step
        (initModel [(⟨"A", 0, 10⟩ : InputRow), ⟨"B", 5, 5⟩] 1 20)))))))
      (step_inv (step_inv (step_inv (step_inv (step_inv (step_inv
        (initModel_inv [(⟨"A", 0, 10⟩ : InputRow), ⟨"B", 5, 5⟩] 1 20
          (by decide) (by decide))
        (by decide)) (by decide)) (by decide)) (by decide)) (by decide)) (by decide))
      [] (⟨10, EventKind.DEPARTURE, "A"⟩ : Event)
      [(⟨10, EventKind.DEPARTURE, "B"⟩ : Event)]
      (by decide) rfl (⟨10, EventKind.DEPARTURE, "B"⟩ : Event)
      (List.mem_singleton.mpr rfl) rfl⟩

end AirportSim
